import Mathlib

/-!
Shallow embedding of the RealEstateGame engine (`Game.py`).

The source is a single Python file with three classes: `RealEstateGame`
(the orchestrator), `Player` and `GameSpace`.  The embedding below keeps
the source's names and resolution order; mutation of objects becomes
explicit state passing on a `RealEstateGame` record, and operations that
can raise `KeyError`/`IndexError` in Python (lookup of an unregistered
player, indexing off the board) return `Option`.

Modelling decisions, each matched against the source:
* `self._game_board` is a Python list of singleton dicts `{i: GameSpace}`
  where the key `i` always equals the position of the dict in the list
  (`create_spaces` appends in index order), so `board[i][i]` is exactly
  positional indexing; the board is a plain `List GameSpace` here.
* A space's name is the string `'GO'` for space 0 and the integer index
  for the others; `SpaceName` is that sum.
* `Player._current_location` is initialized to the string `"GO"` and
  `get_location` translates `"GO"` to `0`; every other write stores an
  integer.  The observable location is therefore a `Nat` starting at `0`.
* `self._players` is a Python dict (insertion-ordered, unique keys); it
  is an insertion-ordered association list here, read through `find?`.
* `create_player` signals a duplicate name by printing a notice and
  leaving the state alone; the printed notice is modelled as a `Bool`
  result (`true` = the duplicate-name message was emitted).
-/

inductive SpaceName where
  | go : SpaceName
  | num : Nat → SpaceName
  deriving DecidableEq

/-- `GameSpace`: name, rent, purchase price (`rent * 5`), owner (`None`
at creation). -/
structure GameSpace where
  game_space_name : SpaceName
  rent : Int
  purchase_price : Int
  game_space_owner : Option String
  deriving DecidableEq

/-- `GameSpace.__init__`. -/
def GameSpace.make (name : SpaceName) (rent : Int) : GameSpace :=
  { game_space_name := name, rent := rent, purchase_price := rent * 5,
    game_space_owner := none }

/-- `GameSpace.remove_game_space_owner`. -/
def GameSpace.remove_game_space_owner (sp : GameSpace) : GameSpace :=
  { sp with game_space_owner := none }

/-- `GameSpace.set_game_space_owner`. -/
def GameSpace.set_game_space_owner (sp : GameSpace) (player_name : String) : GameSpace :=
  { sp with game_space_owner := some player_name }

/-- `Player`: name, balance, location (observably a `Nat`, starting on
GO = 0), owned game-space names (always integer names, since GO can
never be bought). -/
structure Player where
  player_name : String
  account_balance : Int
  current_location : Nat
  owned_game_spaces : List Nat
  deriving DecidableEq

/-- `Player.__init__`. -/
def Player.make (player_name : String) (starting_account_balance : Int) : Player :=
  { player_name := player_name, account_balance := starting_account_balance,
    current_location := 0, owned_game_spaces := [] }

/-- `Player.deposit`. -/
def Player.deposit (p : Player) (amount : Int) : Player :=
  { p with account_balance := p.account_balance + amount }

/-- `Player.withdraw`. -/
def Player.withdraw (p : Player) (amount : Int) : Player :=
  { p with account_balance := p.account_balance - amount }

/-- `Player.set_location`. -/
def Player.set_location (p : Player) (game_space_name : Nat) : Player :=
  { p with current_location := game_space_name }

/-- `Player.buy_game_space`. -/
def Player.buy_game_space (p : Player) (game_space_name : Nat) : Player :=
  { p with owned_game_spaces := p.owned_game_spaces ++ [game_space_name] }

/-- `Player.clear_owned_game_spaces`. -/
def Player.clear_owned_game_spaces (p : Player) : Player :=
  { p with owned_game_spaces := [] }

/-- The state of `RealEstateGame`: the board plus the insertion-ordered
player registry. -/
structure RealEstateGame where
  game_board : List GameSpace
  players : List (String × Player)
  deriving DecidableEq

/-- Dict lookup `self._players[player_name]`, as an `Option`. -/
def getPlayer? (g : RealEstateGame) (player_name : String) : Option Player :=
  (g.players.find? (fun kp => kp.1 == player_name)).map Prod.snd

/-- In-place mutation of the `Player` object stored under a key. -/
def updatePlayer (g : RealEstateGame) (player_name : String) (f : Player → Player) :
    RealEstateGame :=
  { g with players := g.players.map (fun kp => if kp.1 = player_name then (kp.1, f kp.2) else kp) }

/-- In-place mutation of the `GameSpace` stored at a board index. -/
def setSpace (g : RealEstateGame) (i : Nat) (sp : GameSpace) : RealEstateGame :=
  { g with game_board := g.game_board.set i sp }

/-- `RealEstateGame.create_spaces`: the GO space followed by spaces
`1..24` zipped with the rent list (`zip` truncates, as in Python). -/
def create_spaces (go_money : Int) (rent_list : List Int) : List GameSpace :=
  GameSpace.make SpaceName.go go_money ::
    ((List.range' 1 24).zip rent_list).map (fun p => GameSpace.make (SpaceName.num p.1) p.2)

/-- `RealEstateGame.__init__` followed by the one required
`create_spaces` call. -/
def initial_game (go_money : Int) (rent_list : List Int) : RealEstateGame :=
  { game_board := create_spaces go_money rent_list, players := [] }

/-- `RealEstateGame.create_player`.  The `Bool` records whether the
duplicate-name notice was printed (state left unchanged). -/
def create_player (g : RealEstateGame) (player_name : String)
    (starting_account_balance : Int) : RealEstateGame × Bool :=
  if (getPlayer? g player_name).isSome then
    (g, true)
  else
    ({ g with players :=
        g.players ++ [(player_name, Player.make player_name starting_account_balance)] },
     false)

/-- `RealEstateGame.get_player_account_balance`. -/
def get_player_account_balance (g : RealEstateGame) (player_name : String) : Option Int :=
  (getPlayer? g player_name).map Player.account_balance

/-- `RealEstateGame.get_player_current_position`. -/
def get_player_current_position (g : RealEstateGame) (player_name : String) : Option Nat :=
  (getPlayer? g player_name).map Player.current_location

/-- `RealEstateGame.buy_space`.  The `SpaceName.go` arm of the final
match is unreachable: the guard has already returned `false` whenever
the current space is GO. -/
def buy_space (g : RealEstateGame) (player_name : String) : Option (Bool × RealEstateGame) := do
  let player_obj ← getPlayer? g player_name
  let current_space ← g.game_board[player_obj.current_location]?
  if player_obj.account_balance = 0 ∨ current_space.game_space_owner.isSome
      ∨ current_space.game_space_name = SpaceName.go
      ∨ player_obj.account_balance ≤ current_space.purchase_price then
    pure (false, g)
  else
    match current_space.game_space_name with
    | SpaceName.go => none
    | SpaceName.num n =>
        pure (true,
          setSpace
            (updatePlayer g player_name (fun p =>
              Player.buy_game_space (Player.withdraw p current_space.purchase_price) n))
            player_obj.current_location
            (current_space.set_game_space_owner player_name))

/-- `RealEstateGame.pass_go`: deposit the GO space's rent field into the
player's account. -/
def pass_go (g : RealEstateGame) (player_name : String) : Option RealEstateGame := do
  let go_space ← g.game_board[0]?
  let _ ← getPlayer? g player_name
  pure (updatePlayer g player_name (fun p => Player.deposit p go_space.rent))

/-- `RealEstateGame.movement`. -/
def movement (g : RealEstateGame) (player_name : String) (spaces_to_move : Nat) :
    Option RealEstateGame := do
  let player_obj ← getPlayer? g player_name
  let move := player_obj.current_location + spaces_to_move
  if move < g.game_board.length - 1 then
    pure (updatePlayer g player_name (fun p => Player.set_location p move))
  else
    pass_go
      (updatePlayer g player_name (fun p =>
        Player.set_location p (move % g.game_board.length)))
      player_name

/-- One `remove_game_space_owner` call as issued by the loop in
`lose_game`, indexing the board by the owned space's name. -/
def remove_owner_at (board : List GameSpace) (n : Nat) : Option (List GameSpace) := do
  let sp ← board[n]?
  pure (board.set n sp.remove_game_space_owner)

/-- `RealEstateGame.lose_game`: clear the owner of every space in the
player's owned list, then clear the list. -/
def lose_game (g : RealEstateGame) (player_name : String) : Option RealEstateGame := do
  let player_obj ← getPlayer? g player_name
  let board ← player_obj.owned_game_spaces.foldlM remove_owner_at g.game_board
  pure (updatePlayer { g with game_board := board } player_name Player.clear_owned_game_spaces)

/-- `RealEstateGame.pay_rent`.  Python reads the player object, its
balance and its position through three lookups of the same dict entry;
they denote the same object, collapsed here into one read. -/
def pay_rent (g : RealEstateGame) (player_name : String) : Option RealEstateGame := do
  let player ← getPlayer? g player_name
  let bal := player.account_balance
  let location_obj ← g.game_board[player.current_location]?
  let rent := location_obj.rent
  match location_obj.game_space_owner with
  | none => pure g
  | some owner =>
      if owner = "GO" then
        pure g
      else do
        let _ ← getPlayer? g owner
        if rent < bal then
          pure (updatePlayer (updatePlayer g player_name (fun p => Player.withdraw p rent))
            owner (fun p => Player.deposit p rent))
        else
          lose_game
            (updatePlayer (updatePlayer g player_name (fun p => Player.withdraw p bal))
              owner (fun p => Player.deposit p bal))
            player_name

/-- `RealEstateGame.move_player`. -/
def move_player (g : RealEstateGame) (player_name : String) (spaces_to_move : Nat) :
    Option RealEstateGame := do
  let bal ← get_player_account_balance g player_name
  if bal = 0 then
    pure g
  else do
    let g1 ← movement g player_name spaces_to_move
    pay_rent g1 player_name

/-- `RealEstateGame.check_game_over`: count players with balance zero,
remember the last player seen with a nonzero balance, and return that
name when the count is exactly one.  `none` is Python's `None`, `some s`
a returned string. -/
def check_game_over (g : RealEstateGame) : Option String :=
  let cw := g.players.foldl
    (fun acc kp =>
      if kp.2.account_balance = 0 then (acc.1 + 1, acc.2) else (acc.1, some kp.2.player_name))
    ((0 : Nat), (none : Option String))
  if cw.1 = 1 then cw.2 else some ""

/-- `RealEstateGame.get_list_of_player_owned_spaces`. -/
def get_list_of_player_owned_spaces (g : RealEstateGame) (player_name : String) :
    Option (List Nat) :=
  (getPlayer? g player_name).map Player.owned_game_spaces

/-- The public operations of the engine, from a game whose board has
been built by the one required `create_spaces` call.  Players are
registered with nonnegative starting balances, the construction
contract of the engine (accessors and `check_game_over` mutate
nothing and add no transitions). -/
inductive Reach (g0 : RealEstateGame) : RealEstateGame → Prop where
  | refl : Reach g0 g0
  | create {g : RealEstateGame} (name : String) (bal : Int) (hbal : 0 ≤ bal)
      (h : Reach g0 g) : Reach g0 (create_player g name bal).1
  | buy {g g' : RealEstateGame} (name : String) (b : Bool)
      (h : Reach g0 g) (hstep : buy_space g name = some (b, g')) : Reach g0 g'
  | move {g g' : RealEstateGame} (name : String) (n : Nat)
      (h : Reach g0 g) (hstep : move_player g name n = some g') : Reach g0 g'

/-- The inductive invariant of reachable game states: board shape fixed
by `create_spaces`, positive rents, unique registry keys, players'
stored names matching their keys, nonnegative balances, positions on
the board, eliminated players owning nothing, duplicate-free owned
lists, and owned lists mutually consistent with the spaces' owner
fields. -/
structure GameInv (g : RealEstateGame) : Prop where
  board_len : g.game_board.length = 25
  board_name : ∀ i sp, g.game_board[i]? = some sp →
      sp.game_space_name = if i = 0 then SpaceName.go else SpaceName.num i
  rent_pos : ∀ sp ∈ g.game_board, 0 < sp.rent
  keys_nodup : (g.players.map Prod.fst).Nodup
  name_eq : ∀ kp ∈ g.players, kp.2.player_name = kp.1
  bal_nonneg : ∀ kp ∈ g.players, 0 ≤ kp.2.account_balance
  loc_lt : ∀ kp ∈ g.players, kp.2.current_location < 25
  zero_owns_nothing : ∀ kp ∈ g.players,
      kp.2.account_balance = 0 → kp.2.owned_game_spaces = []
  owned_nodup : ∀ kp ∈ g.players, kp.2.owned_game_spaces.Nodup
  owned_owner : ∀ kp ∈ g.players, ∀ i ∈ kp.2.owned_game_spaces,
      ∃ sp, g.game_board[i]? = some sp ∧ sp.game_space_owner = some kp.1
  owner_owned : ∀ i sp o, g.game_board[i]? = some sp → sp.game_space_owner = some o →
      ∃ q ∈ g.players, q.1 = o ∧ i ∈ q.2.owned_game_spaces

/-- A 24-entry rent list with rent 50 on every space. -/
def flat_rents : List Int := List.replicate 24 50

/-- Concrete run: go payout 200, flat rents 50, players A (1000),
B (30), C (1000). -/
def demo_game0 : RealEstateGame :=
  (create_player (create_player (create_player (initial_game 200 flat_rents)
    "A" 1000).1 "B" 30).1 "C" 1000).1

/-- A moves to space 1. -/
def demo_game1 : RealEstateGame := (move_player demo_game0 "A" 1).getD demo_game0

/-- A buys space 1 (price 250). -/
def demo_game2 : RealEstateGame := ((buy_space demo_game1 "A").getD (false, demo_game1)).2

/-- B lands on A's space 1 with balance 30 < rent 50: B pays its whole
balance and is eliminated while C has never moved. -/
def demo_game3 : RealEstateGame := (move_player demo_game2 "B" 1).getD demo_game2

/-- Rent list for the self-landing run: rent 50 everywhere except 305 on
space 20. -/
def c2_rents : List Int := (List.replicate 24 (50 : Int)).set 19 305

/-- Self-landing run: go payout 5, players A (600) and B (2000). -/
def c2_game0 : RealEstateGame :=
  (create_player (create_player (initial_game 5 c2_rents) "A" 600).1 "B" 2000).1

/-- A moves to space 10. -/
def c2_game1 : RealEstateGame := (move_player c2_game0 "A" 10).getD c2_game0

/-- A buys space 10 (rent 50, price 250): balance 350. -/
def c2_game2 : RealEstateGame := ((buy_space c2_game1 "A").getD (false, c2_game1)).2

/-- B moves to space 20. -/
def c2_game3 : RealEstateGame := (move_player c2_game2 "B" 20).getD c2_game2

/-- B buys space 20 (rent 305, price 1525): balance 475. -/
def c2_game4 : RealEstateGame := ((buy_space c2_game3 "B").getD (false, c2_game3)).2

/-- A lands on B's space 20 and pays rent 305: balance 45. -/
def c2_game5 : RealEstateGame := (move_player c2_game4 "A" 10).getD c2_game4

/-- A wraps around to its own space 10, collecting the 5 GO payout on
the way: balance 50, facing its own rent of 50. -/
def c2_game6 : RealEstateGame := (movement c2_game5 "A" 15).getD c2_game5

/-- The rent-resolution step on A's own space with rent 50 = balance 50. -/
def c2_game7 : RealEstateGame := (pay_rent c2_game6 "A").getD c2_game6

/-- Literal state for the self-owner rent boundary: A holds space 1 and
stands on it with balance 30 below the rent of 50. -/
def c5_game : RealEstateGame :=
  { game_board := (create_spaces 200 flat_rents).set 1
      (GameSpace.mk (SpaceName.num 1) 50 250 (some "A")),
    players := [("A", Player.mk "A" 30 1 [1])] }

/-- Literal state with a distinct owner: A stands on B's space 1 with
balance 30 below the rent of 50, and B holds spaces 1 and 2. -/
def c5_other_game : RealEstateGame :=
  { game_board := ((create_spaces 200 flat_rents).set 1
      (GameSpace.mk (SpaceName.num 1) 50 250 (some "B"))).set 2
      (GameSpace.mk (SpaceName.num 2) 50 250 (some "B")),
    players := [("A", Player.mk "A" 30 1 []), ("B", Player.mk "B" 700 2 [1, 2])] }

/-- Literal one-player state on an unowned space 1 with balance 1000. -/
def w3_game : RealEstateGame :=
  { game_board := create_spaces 200 flat_rents,
    players := [("A", Player.mk "A" 1000 1 [])] }

/-- Spec §8 end-to-end check: go payout 200, all rents 50, player A with
1000; moving by 1 lands on space 1, buying succeeds at price 250. -/
example :
    (do
      let g0 := initial_game 200 (List.replicate 24 50)
      let g1 := (create_player g0 "A" 1000).1
      let g2 ← move_player g1 "A" 1
      let r ← buy_space g2 "A"
      pure (r.1, (getPlayer? r.2 "A").map Player.account_balance,
        (getPlayer? r.2 "A").map Player.owned_game_spaces,
        (r.2.game_board[1]?).map GameSpace.game_space_owner) :
      Option (Bool × Option Int × Option (List Nat) × Option (Option String))) =
    some (true, some 750, some [1], some (some "A")) := by rfl

/-! ### Registry lemmas -/

theorem getPlayer?_updatePlayer_self (g : RealEstateGame) (k : String) (f : Player → Player) :
    getPlayer? (updatePlayer g k f) k = (getPlayer? g k).map f := by
  simp only [getPlayer?, updatePlayer, List.find?_map]
  have hpred : ((fun kp : String × Player => kp.1 == k) ∘
      (fun kp : String × Player => if kp.1 = k then (kp.1, f kp.2) else kp)) =
      (fun kp : String × Player => kp.1 == k) := by
    funext kp; by_cases h : kp.1 = k <;> simp [h]
  rw [hpred]
  cases hf : g.players.find? (fun kp => kp.1 == k) with
  | none => simp
  | some kp =>
      have hk : kp.1 = k := by simpa using List.find?_some hf
      simp [hk]

theorem getPlayer?_updatePlayer_ne (g : RealEstateGame) (k k' : String) (f : Player → Player)
    (h : k' ≠ k) : getPlayer? (updatePlayer g k f) k' = getPlayer? g k' := by
  simp only [getPlayer?, updatePlayer, List.find?_map]
  have hpred : ((fun kp : String × Player => kp.1 == k') ∘
      (fun kp : String × Player => if kp.1 = k then (kp.1, f kp.2) else kp)) =
      (fun kp : String × Player => kp.1 == k') := by
    funext kp; by_cases hk : kp.1 = k <;> simp [hk]
  rw [hpred]
  cases hf : g.players.find? (fun kp => kp.1 == k') with
  | none => simp
  | some kp =>
      have hk' : kp.1 = k' := by simpa using List.find?_some hf
      have hne : ¬kp.1 = k := by rw [hk']; exact h
      simp [hne]

theorem updatePlayer_game_board (g : RealEstateGame) (k : String) (f : Player → Player) :
    (updatePlayer g k f).game_board = g.game_board := rfl

theorem setSpace_players (g : RealEstateGame) (i : Nat) (sp : GameSpace) :
    (setSpace g i sp).players = g.players := rfl

theorem getPlayer?_setSpace (g : RealEstateGame) (i : Nat) (sp : GameSpace) (k : String) :
    getPlayer? (setSpace g i sp) k = getPlayer? g k := rfl

theorem updatePlayer_updatePlayer (g : RealEstateGame) (k : String) (f h : Player → Player) :
    updatePlayer (updatePlayer g k f) k h = updatePlayer g k (fun p => h (f p)) := by
  simp only [updatePlayer, List.map_map]
  congr 1
  refine List.map_congr_left fun kp _ => ?_
  by_cases hk : kp.1 = k <;> simp [Function.comp, hk]

theorem updatePlayer_congr (g : RealEstateGame) (k : String) (f h : Player → Player)
    (he : ∀ p, f p = h p) : updatePlayer g k f = updatePlayer g k h := by
  simp only [updatePlayer]
  congr 1
  refine List.map_congr_left fun kp _ => ?_
  by_cases hk : kp.1 = k <;> simp [hk, he]

theorem updatePlayer_keys (g : RealEstateGame) (k : String) (f : Player → Player) :
    (updatePlayer g k f).players.map Prod.fst = g.players.map Prod.fst := by
  simp only [updatePlayer, List.map_map]
  refine List.map_congr_left fun kp _ => ?_
  by_cases hk : kp.1 = k <;> simp [Function.comp, hk]

theorem mem_updatePlayer_of_mem_ne {g : RealEstateGame} {k : String} {f : Player → Player}
    {kp : String × Player} (h : kp ∈ g.players) (hk : kp.1 ≠ k) :
    kp ∈ (updatePlayer g k f).players := by
  simp only [updatePlayer, List.mem_map]
  exact ⟨kp, h, by simp [hk]⟩

theorem mem_updatePlayer_of_mem_eq {g : RealEstateGame} {k : String} {f : Player → Player}
    {kp : String × Player} (h : kp ∈ g.players) (hk : kp.1 = k) :
    (kp.1, f kp.2) ∈ (updatePlayer g k f).players := by
  simp only [updatePlayer, List.mem_map]
  exact ⟨kp, h, by simp [hk]⟩

/-- All per-entry facts about the registry survive `updatePlayer` when
they hold for the untouched entries and for the rewritten one. -/
theorem forall_mem_updatePlayer {g : RealEstateGame} {k : String} {f : Player → Player}
    {P : String × Player → Prop}
    (h : ∀ kp ∈ g.players, kp.1 ≠ k → P kp)
    (hf : ∀ kp ∈ g.players, kp.1 = k → P (kp.1, f kp.2)) :
    ∀ kp ∈ (updatePlayer g k f).players, P kp := by
  intro kp hm
  simp only [updatePlayer, List.mem_map] at hm
  obtain ⟨kp0, hm0, heq⟩ := hm
  by_cases hk : kp0.1 = k
  · rw [← heq]
    simpa [hk] using hf kp0 hm0 hk
  · rw [← heq]
    simpa [hk] using h kp0 hm0 hk

theorem getPlayer?_mem {g : RealEstateGame} {k : String} {pl : Player}
    (h : getPlayer? g k = some pl) : (k, pl) ∈ g.players := by
  simp only [getPlayer?, Option.map_eq_some'] at h
  obtain ⟨kp, hfind, hsnd⟩ := h
  have hk : kp.1 = k := by simpa using List.find?_some hfind
  have hm := List.mem_of_find?_eq_some hfind
  have : kp = (k, pl) := by
    cases kp with
    | mk a b => simp only at hk hsnd; rw [hk, hsnd]
  rwa [this] at hm

theorem getPlayer?_of_mem {g : RealEstateGame} (hnd : (g.players.map Prod.fst).Nodup)
    {k : String} {pl : Player} (h : (k, pl) ∈ g.players) : getPlayer? g k = some pl := by
  obtain ⟨board, ps⟩ := g
  simp only [getPlayer?]
  induction ps with
  | nil => simp at h
  | cons a l ih =>
      simp only [List.map_cons, List.nodup_cons] at hnd
      rcases List.mem_cons.mp h with h1 | h1
      · rw [← h1]
        rw [List.find?_cons_of_pos _ (by simp)]
        simp
      · have hk : a.1 ≠ k := by
          intro he
          exact hnd.1 (he ▸ (List.mem_map_of_mem Prod.fst h1))
        rw [List.find?_cons_of_neg _ (by simpa using hk)]
        exact ih hnd.2 h1

theorem mem_eq_of_getPlayer? {g : RealEstateGame} (hnd : (g.players.map Prod.fst).Nodup)
    {k : String} {pl v : Player} (h : getPlayer? g k = some pl) (hm : (k, v) ∈ g.players) :
    v = pl := by
  have := getPlayer?_of_mem hnd hm
  rw [this] at h
  exact Option.some.inj h

theorem entry_eq_of_keys_nodup {g : RealEstateGame} (hnd : (g.players.map Prod.fst).Nodup)
    {kp kq : String × Player} (hp : kp ∈ g.players) (hq : kq ∈ g.players)
    (hk : kp.1 = kq.1) : kp = kq := by
  have h1 : getPlayer? g kp.1 = some kp.2 := getPlayer?_of_mem hnd (by simpa using hp)
  have h2 : getPlayer? g kq.1 = some kq.2 := getPlayer?_of_mem hnd (by simpa using hq)
  rw [hk] at h1
  rw [h2] at h1
  have := Option.some.inj h1
  cases kp; cases kq
  simp only at hk this
  rw [hk, this]

theorem getPlayer?_not_registered {g : RealEstateGame} {k : String}
    (h : ¬(getPlayer? g k).isSome) : k ∉ g.players.map Prod.fst := by
  intro hmem
  obtain ⟨kp, hkp, hfst⟩ := List.mem_map.mp hmem
  apply h
  simp only [getPlayer?]
  cases hf : g.players.find? (fun kp => kp.1 == k) with
  | none =>
      rw [List.find?_eq_none] at hf
      exact absurd (by simpa using hfst) (by simpa using hf kp hkp)
  | some kq => simp

theorem getPlayer?_append_of_some {g : RealEstateGame} {k : String} {pl : Player}
    (e : String × Player) (h : getPlayer? g k = some pl) :
    getPlayer? { g with players := g.players ++ [e] } k = some pl := by
  simp only [getPlayer?, List.find?_append] at h ⊢
  cases hf : g.players.find? (fun kp => kp.1 == k) with
  | none => rw [hf] at h; simp at h
  | some kp => rw [hf] at h; simpa [Option.or] using h

/-! ### Board lemmas -/

theorem GameSpace.remove_remove (sp : GameSpace) :
    sp.remove_game_space_owner.remove_game_space_owner = sp.remove_game_space_owner := rfl

theorem foldlM_remove_owner_spec (l : List Nat) (board : List GameSpace)
    (h : ∀ n ∈ l, n < board.length) :
    ∃ board', l.foldlM remove_owner_at board = some board' ∧
      board'.length = board.length ∧
      ∀ j, board'[j]? = if j ∈ l then
          (board[j]?).map GameSpace.remove_game_space_owner else board[j]? := by
  induction l generalizing board with
  | nil => exact ⟨board, by simp, rfl, fun j => by simp⟩
  | cons n rest ih =>
      have hn : n < board.length := h n (List.mem_cons_self _ _)
      have hspn : board[n]? = some board[n] := List.getElem?_eq_getElem hn
      have h1 : ∀ m ∈ rest, m < (board.set n board[n].remove_game_space_owner).length := by
        intro m hm
        rw [List.length_set]
        exact h m (List.mem_cons_of_mem _ hm)
      obtain ⟨board', hfold, hlen, hval⟩ := ih _ h1
      have hstep : remove_owner_at board n =
          some (board.set n board[n].remove_game_space_owner) := by
        simp [remove_owner_at, hspn]
      refine ⟨board', ?_, ?_, ?_⟩
      · rw [List.foldlM_cons, hstep]
        simpa using hfold
      · rw [hlen, List.length_set]
      · intro j
        rw [hval j]
        by_cases hjn : j = n
        · subst hjn
          by_cases hjr : j ∈ rest <;>
            simp [hjr, List.getElem?_set_self hn, hspn, GameSpace.remove_remove]
        · by_cases hjr : j ∈ rest <;>
            simp [hjr, hjn, List.getElem?_set_ne (fun he => hjn he.symm),
              List.mem_cons]

theorem lose_game_eq (g : RealEstateGame) (name : String) (pl : Player)
    (hp : getPlayer? g name = some pl)
    (hrange : ∀ i ∈ pl.owned_game_spaces, i < g.game_board.length) :
    ∃ board', pl.owned_game_spaces.foldlM remove_owner_at g.game_board = some board' ∧
      lose_game g name =
        some (updatePlayer { g with game_board := board' } name
          Player.clear_owned_game_spaces) ∧
      board'.length = g.game_board.length ∧
      (∀ j, board'[j]? = if j ∈ pl.owned_game_spaces then
          (g.game_board[j]?).map GameSpace.remove_game_space_owner else g.game_board[j]?) := by
  obtain ⟨board', hfold, hlen, hval⟩ := foldlM_remove_owner_spec _ _ hrange
  exact ⟨board', hfold, by simp [lose_game, hp, hfold], hlen, hval⟩

theorem lose_game_inv {g g' : RealEstateGame} {name : String}
    (h : lose_game g name = some g') :
    ∃ pl board', getPlayer? g name = some pl ∧
      pl.owned_game_spaces.foldlM remove_owner_at g.game_board = some board' ∧
      g' = updatePlayer { g with game_board := board' } name
        Player.clear_owned_game_spaces := by
  simp only [lose_game, Option.bind_eq_bind, Option.bind_eq_some] at h
  obtain ⟨pl, hp, board', hfold, hg'⟩ := h
  exact ⟨pl, board', hp, hfold, (Option.some.inj hg').symm⟩

/-! ### Operation characterizations -/

theorem buy_space_fail {g : RealEstateGame} {name : String} {pl : Player} {sp : GameSpace}
    (hp : getPlayer? g name = some pl)
    (hsp : g.game_board[pl.current_location]? = some sp)
    (hguard : pl.account_balance = 0 ∨ sp.game_space_owner.isSome
      ∨ sp.game_space_name = SpaceName.go ∨ pl.account_balance ≤ sp.purchase_price) :
    buy_space g name = some (false, g) := by
  simp [buy_space, hp, hsp, hguard]

theorem buy_space_succeed {g : RealEstateGame} {name : String} {pl : Player} {sp : GameSpace}
    {m : Nat} (hp : getPlayer? g name = some pl)
    (hsp : g.game_board[pl.current_location]? = some sp)
    (hguard : ¬(pl.account_balance = 0 ∨ sp.game_space_owner.isSome
      ∨ sp.game_space_name = SpaceName.go ∨ pl.account_balance ≤ sp.purchase_price))
    (hname : sp.game_space_name = SpaceName.num m) :
    buy_space g name = some (true,
      setSpace
        (updatePlayer g name (fun p =>
          Player.buy_game_space (Player.withdraw p sp.purchase_price) m))
        pl.current_location (sp.set_game_space_owner name)) := by
  simp only [buy_space, hp, Option.bind_eq_bind, Option.some_bind, hsp, hguard, if_false]
  rw [hname]
  rfl

theorem buy_space_elim {g g' : RealEstateGame} {name : String} {b : Bool}
    (h : buy_space g name = some (b, g')) :
    ∃ pl sp, getPlayer? g name = some pl ∧
      g.game_board[pl.current_location]? = some sp ∧
      ((b = false ∧ g' = g ∧
        (pl.account_balance = 0 ∨ sp.game_space_owner.isSome
          ∨ sp.game_space_name = SpaceName.go
          ∨ pl.account_balance ≤ sp.purchase_price)) ∨
       (b = true ∧
        ¬(pl.account_balance = 0 ∨ sp.game_space_owner.isSome
          ∨ sp.game_space_name = SpaceName.go
          ∨ pl.account_balance ≤ sp.purchase_price) ∧
        ∃ m, sp.game_space_name = SpaceName.num m ∧
          g' = setSpace
            (updatePlayer g name (fun p =>
              Player.buy_game_space (Player.withdraw p sp.purchase_price) m))
            pl.current_location (sp.set_game_space_owner name))) := by
  simp only [buy_space, Option.bind_eq_bind, Option.bind_eq_some] at h
  obtain ⟨pl, hp, sp, hsp, hrest⟩ := h
  refine ⟨pl, sp, hp, hsp, ?_⟩
  by_cases hguard : pl.account_balance = 0 ∨ sp.game_space_owner.isSome
      ∨ sp.game_space_name = SpaceName.go ∨ pl.account_balance ≤ sp.purchase_price
  · rw [if_pos hguard] at hrest
    have hpair := Option.some.inj hrest
    have hb := congrArg Prod.fst hpair
    have hg := congrArg Prod.snd hpair
    exact Or.inl ⟨hb.symm, hg.symm, hguard⟩
  · rw [if_neg hguard] at hrest
    cases hname : sp.game_space_name with
    | go => rw [hname] at hrest; simp at hrest
    | num m =>
        rw [hname] at hrest
        have hpair := Option.some.inj hrest
        have hb := congrArg Prod.fst hpair
        have hg := congrArg Prod.snd hpair
        exact Or.inr ⟨hb.symm, by simpa [hname] using hguard, m, rfl, hg.symm⟩

theorem pass_go_eq {g : RealEstateGame} {name : String} {pl : Player} {gosp : GameSpace}
    (hp : getPlayer? g name = some pl) (hg0 : g.game_board[0]? = some gosp) :
    pass_go g name = some (updatePlayer g name (fun p => Player.deposit p gosp.rent)) := by
  simp [pass_go, hp, hg0]

theorem movement_lt {g : RealEstateGame} {name : String} {pl : Player} {n : Nat}
    (hp : getPlayer? g name = some pl)
    (hlt : pl.current_location + n < g.game_board.length - 1) :
    movement g name n =
      some (updatePlayer g name (fun p => Player.set_location p (pl.current_location + n))) := by
  simp [movement, hp, hlt]

theorem movement_ge {g : RealEstateGame} {name : String} {pl : Player} {gosp : GameSpace}
    {n : Nat} (hp : getPlayer? g name = some pl)
    (hge : ¬pl.current_location + n < g.game_board.length - 1)
    (hg0 : g.game_board[0]? = some gosp) :
    movement g name n =
      some (updatePlayer g name (fun p =>
        Player.deposit
          (Player.set_location p ((pl.current_location + n) % g.game_board.length))
          gosp.rent)) := by
  have hp1 : getPlayer? (updatePlayer g name (fun p =>
      Player.set_location p ((pl.current_location + n) % g.game_board.length))) name =
      some (Player.set_location pl ((pl.current_location + n) % g.game_board.length)) := by
    rw [getPlayer?_updatePlayer_self, hp]; rfl
  simp only [movement, hp, Option.bind_eq_bind, Option.some_bind, hge, if_false]
  rw [pass_go_eq hp1 hg0, updatePlayer_updatePlayer]

theorem movement_elim {g g' : RealEstateGame} {name : String} {n : Nat}
    (h : movement g name n = some g') :
    ∃ pl, getPlayer? g name = some pl ∧
      ((pl.current_location + n < g.game_board.length - 1 ∧
        g' = updatePlayer g name
          (fun p => Player.set_location p (pl.current_location + n))) ∨
       (¬pl.current_location + n < g.game_board.length - 1 ∧
        ∃ gosp, g.game_board[0]? = some gosp ∧
          g' = updatePlayer g name (fun p =>
            Player.deposit
              (Player.set_location p ((pl.current_location + n) % g.game_board.length))
              gosp.rent))) := by
  simp only [movement, Option.bind_eq_bind, Option.bind_eq_some] at h
  obtain ⟨pl, hp, hrest⟩ := h
  refine ⟨pl, hp, ?_⟩
  by_cases hlt : pl.current_location + n < g.game_board.length - 1
  · rw [if_pos hlt] at hrest
    exact Or.inl ⟨hlt, (Option.some.inj hrest).symm⟩
  · rw [if_neg hlt] at hrest
    simp only [pass_go, Option.bind_eq_bind, Option.bind_eq_some,
      updatePlayer_game_board] at hrest
    obtain ⟨gosp, hg0, _, _, hg'⟩ := hrest
    refine Or.inr ⟨hlt, gosp, hg0, ?_⟩
    rw [← Option.some.inj hg', updatePlayer_updatePlayer]

theorem pay_rent_unowned {g : RealEstateGame} {name : String} {pl : Player} {sp : GameSpace}
    (hp : getPlayer? g name = some pl)
    (hsp : g.game_board[pl.current_location]? = some sp)
    (how : sp.game_space_owner = none) :
    pay_rent g name = some g := by
  simp [pay_rent, hp, hsp, how]

theorem pay_rent_go_owner {g : RealEstateGame} {name : String} {pl : Player} {sp : GameSpace}
    (hp : getPlayer? g name = some pl)
    (hsp : g.game_board[pl.current_location]? = some sp)
    (how : sp.game_space_owner = some "GO") :
    pay_rent g name = some g := by
  simp [pay_rent, hp, hsp, how]

theorem pay_rent_small {g : RealEstateGame} {name : String} {pl plo : Player} {sp : GameSpace}
    {o : String} (hp : getPlayer? g name = some pl)
    (hsp : g.game_board[pl.current_location]? = some sp)
    (how : sp.game_space_owner = some o) (hgo : o ≠ "GO")
    (hpo : getPlayer? g o = some plo) (hlt : sp.rent < pl.account_balance) :
    pay_rent g name =
      some (updatePlayer (updatePlayer g name (fun p => Player.withdraw p sp.rent)) o
        (fun p => Player.deposit p sp.rent)) := by
  simp [pay_rent, hp, hsp, how, hgo, hpo, hlt]

theorem pay_rent_big {g : RealEstateGame} {name : String} {pl plo : Player} {sp : GameSpace}
    {o : String} (hp : getPlayer? g name = some pl)
    (hsp : g.game_board[pl.current_location]? = some sp)
    (how : sp.game_space_owner = some o) (hgo : o ≠ "GO")
    (hpo : getPlayer? g o = some plo) (hge : ¬sp.rent < pl.account_balance) :
    pay_rent g name =
      lose_game
        (updatePlayer (updatePlayer g name (fun p => Player.withdraw p pl.account_balance)) o
          (fun p => Player.deposit p pl.account_balance))
        name := by
  simp [pay_rent, hp, hsp, how, hgo, hpo, hge]

theorem pay_rent_elim {g g' : RealEstateGame} {name : String}
    (h : pay_rent g name = some g') :
    ∃ pl sp, getPlayer? g name = some pl ∧
      g.game_board[pl.current_location]? = some sp ∧
      ((sp.game_space_owner = none ∧ g' = g) ∨
       (sp.game_space_owner = some "GO" ∧ g' = g) ∨
       (∃ o plo, sp.game_space_owner = some o ∧ o ≠ "GO" ∧ getPlayer? g o = some plo ∧
        ((sp.rent < pl.account_balance ∧
          g' = updatePlayer (updatePlayer g name (fun p => Player.withdraw p sp.rent)) o
            (fun p => Player.deposit p sp.rent)) ∨
         (¬sp.rent < pl.account_balance ∧
          lose_game
            (updatePlayer
              (updatePlayer g name (fun p => Player.withdraw p pl.account_balance)) o
              (fun p => Player.deposit p pl.account_balance))
            name = some g')))) := by
  simp only [pay_rent, Option.bind_eq_bind, Option.bind_eq_some] at h
  obtain ⟨pl, hp, sp, hsp, hrest⟩ := h
  refine ⟨pl, sp, hp, hsp, ?_⟩
  split at hrest
  · rename_i how
    exact Or.inl ⟨how, (Option.some.inj hrest).symm⟩
  · rename_i o how
    split at hrest
    · rename_i hgo
      subst hgo
      exact Or.inr (Or.inl ⟨how, (Option.some.inj hrest).symm⟩)
    · rename_i hgo
      simp only [Option.bind_eq_bind, Option.bind_eq_some] at hrest
      obtain ⟨plo, hpo, hrest⟩ := hrest
      refine Or.inr (Or.inr ⟨o, plo, how, hgo, hpo, ?_⟩)
      split at hrest
      · rename_i hlt
        exact Or.inl ⟨hlt, (Option.some.inj hrest).symm⟩
      · rename_i hlt
        exact Or.inr ⟨hlt, hrest⟩

theorem move_player_inactive {g : RealEstateGame} {name : String} {pl : Player}
    (hp : getPlayer? g name = some pl) (h0 : pl.account_balance = 0) (n : Nat) :
    move_player g name n = some g := by
  simp [move_player, get_player_account_balance, hp, h0]

theorem move_player_active {g : RealEstateGame} {name : String} {pl : Player}
    (hp : getPlayer? g name = some pl) (h0 : pl.account_balance ≠ 0) (n : Nat) :
    move_player g name n = (movement g name n).bind (fun g1 => pay_rent g1 name) := by
  simp [move_player, get_player_account_balance, hp, h0]

theorem move_player_elim {g g' : RealEstateGame} {name : String} {n : Nat}
    (h : move_player g name n = some g') :
    ∃ pl, getPlayer? g name = some pl ∧
      ((pl.account_balance = 0 ∧ g' = g) ∨
       (pl.account_balance ≠ 0 ∧ ∃ g1, movement g name n = some g1 ∧
        pay_rent g1 name = some g')) := by
  simp only [move_player, get_player_account_balance, Option.bind_eq_bind,
    Option.map_eq_map, Option.bind_map, Option.bind_eq_some] at h
  obtain ⟨pl, hp, hrest⟩ := h
  refine ⟨pl, hp, ?_⟩
  simp only [Function.comp] at hrest
  split at hrest
  · rename_i h0
    exact Or.inl ⟨h0, (Option.some.inj hrest).symm⟩
  · rename_i h0
    simp only [Option.bind_eq_bind, Option.bind_eq_some] at hrest
    obtain ⟨g1, hmv, hpr⟩ := hrest
    exact Or.inr ⟨h0, g1, hmv, hpr⟩

/-! ### The invariant holds initially -/

theorem create_spaces_length (go : Int) (rents : List Int) (hlen : rents.length = 24) :
    (create_spaces go rents).length = 25 := by
  simp [create_spaces, List.length_zip, hlen]

theorem create_spaces_getElem? (go : Int) (rents : List Int) (i : Nat) (sp : GameSpace)
    (h : (create_spaces go rents)[i]? = some sp) :
    sp.game_space_name = (if i = 0 then SpaceName.go else SpaceName.num i) ∧
    sp.game_space_owner = none ∧ (sp.rent = go ∨ sp.rent ∈ rents) := by
  cases i with
  | zero =>
      simp only [create_spaces, List.getElem?_cons_zero] at h
      rw [← Option.some.inj h]
      exact ⟨rfl, rfl, Or.inl rfl⟩
  | succ k =>
      simp only [create_spaces, List.getElem?_cons_succ, List.getElem?_map] at h
      rw [Option.map_eq_some'] at h
      obtain ⟨pr, hz, hmk⟩ := h
      rw [List.getElem?_zip_eq_some] at hz
      obtain ⟨h1, h2⟩ := hz
      have hk : k < 24 := by
        obtain ⟨hlt, _⟩ := List.getElem?_eq_some.mp h1
        simpa [List.length_range'] using hlt
      rw [List.getElem?_range' 1 1 hk] at h1
      have hpr1 : pr.1 = k + 1 := by
        have := Option.some.inj h1
        omega
      rw [← hmk, hpr1]
      refine ⟨by simp [GameSpace.make], rfl, Or.inr ?_⟩
      exact List.getElem?_mem h2

theorem inv_init (go : Int) (rents : List Int) (hgo : 0 < go) (hlen : rents.length = 24)
    (hpos : ∀ r ∈ rents, 0 < r) : GameInv (initial_game go rents) := by
  refine ⟨create_spaces_length go rents hlen, ?_, ?_, by simp [initial_game], ?_, ?_, ?_, ?_, ?_,
    ?_, ?_⟩
  · intro i sp h
    exact (create_spaces_getElem? go rents i sp h).1
  · intro sp hm
    obtain ⟨i, hi⟩ := List.mem_iff_getElem?.mp hm
    rcases (create_spaces_getElem? go rents i sp hi).2.2 with hr | hr
    · rw [hr]; exact hgo
    · exact hpos _ hr
  all_goals
    first
    | (intro kp hm; exact absurd hm (List.not_mem_nil _))
    | (intro i sp o hi how
       exact absurd ((create_spaces_getElem? go rents i sp hi).2.1 ▸ how)
         (by simp))

/-! ### The invariant is preserved by the public operations -/

theorem inv_create {g : RealEstateGame} (name : String) (bal : Int) (hb : 0 ≤ bal)
    (hI : GameInv g) : GameInv (create_player g name bal).1 := by
  by_cases hreg : (getPlayer? g name).isSome
  · simpa [create_player, hreg] using hI
  · have hnotin : name ∉ g.players.map Prod.fst := getPlayer?_not_registered hreg
    simp only [create_player, hreg, if_false]
    refine ⟨hI.board_len, hI.board_name, hI.rent_pos, ?_, ?_, ?_, ?_, ?_, ?_, ?_, ?_⟩
    · simpa [List.nodup_append, hI.keys_nodup] using hnotin
    · intro kp hm
      rcases List.mem_append.mp hm with h1 | h1
      · exact hI.name_eq kp h1
      · rw [List.mem_singleton.mp h1]; rfl
    · intro kp hm
      rcases List.mem_append.mp hm with h1 | h1
      · exact hI.bal_nonneg kp h1
      · rw [List.mem_singleton.mp h1]; exact hb
    · intro kp hm
      rcases List.mem_append.mp hm with h1 | h1
      · exact hI.loc_lt kp h1
      · rw [List.mem_singleton.mp h1]; simp [Player.make]
    · intro kp hm
      rcases List.mem_append.mp hm with h1 | h1
      · exact hI.zero_owns_nothing kp h1
      · rw [List.mem_singleton.mp h1]; intro; rfl
    · intro kp hm
      rcases List.mem_append.mp hm with h1 | h1
      · exact hI.owned_nodup kp h1
      · rw [List.mem_singleton.mp h1]; exact List.nodup_nil
    · intro kp hm i hi
      rcases List.mem_append.mp hm with h1 | h1
      · exact hI.owned_owner kp h1 i hi
      · rw [List.mem_singleton.mp h1] at hi
        exact absurd hi (List.not_mem_nil _)
    · intro i sp o hi how
      obtain ⟨q, hq, hq1, hq2⟩ := hI.owner_owned i sp o hi how
      exact ⟨q, List.mem_append_left _ hq, hq1, hq2⟩

theorem inv_buy {g g' : RealEstateGame} {name : String} {b : Bool}
    (hI : GameInv g) (h : buy_space g name = some (b, g')) : GameInv g' := by
  obtain ⟨pl, sp, hp, hsp, hcase⟩ := buy_space_elim h
  rcases hcase with ⟨_, rfl, _⟩ | ⟨_, hguard, m, hname, rfl⟩
  · exact hI
  · push_neg at hguard
    obtain ⟨hb0, hown', hngo, hprice⟩ := hguard
    have hown : sp.game_space_owner = none :=
      Option.not_isSome_iff_eq_none.mp (by simpa using hown')
    have hloc : pl.current_location < g.game_board.length :=
      (List.getElem?_eq_some.mp hsp).1
    have hmeq : m = pl.current_location ∧ pl.current_location ≠ 0 := by
      have hbn := hI.board_name _ _ hsp
      rw [hname] at hbn
      by_cases h0 : pl.current_location = 0
      · rw [if_pos h0] at hbn; exact absurd hbn (by simp)
      · rw [if_neg h0] at hbn
        exact ⟨(SpaceName.num.inj hbn), h0⟩
    have hmem : (name, pl) ∈ g.players := getPlayer?_mem hp
    have hmnotin : m ∉ pl.owned_game_spaces := by
      intro hin
      obtain ⟨spm, hspm, hspmo⟩ := hI.owned_owner (name, pl) hmem m hin
      rw [hmeq.1, hsp] at hspm
      rw [← Option.some.inj hspm] at hspmo
      rw [hown] at hspmo
      exact Option.noConfusion hspmo
    have hbal' : 0 < pl.account_balance - sp.purchase_price := by
      have := hprice
      omega
    refine ⟨?_, ?_, ?_, ?_, ?_, ?_, ?_, ?_, ?_, ?_, ?_⟩
    · simpa [setSpace, List.length_set, updatePlayer_game_board] using hI.board_len
    · intro i spi hi
      simp only [setSpace, updatePlayer_game_board, List.getElem?_set] at hi
      by_cases hiloc : pl.current_location = i
      · rw [if_pos hiloc, if_pos (hiloc ▸ hloc)] at hi
        have : spi = sp.set_game_space_owner name := (Option.some.inj hi).symm
        rw [this]
        have := hI.board_name _ _ hsp
        rw [← hiloc]
        exact this
      · rw [if_neg hiloc] at hi
        exact hI.board_name i spi hi
    · intro spi hmi
      simp only [setSpace, updatePlayer_game_board] at hmi
      rcases List.mem_or_eq_of_mem_set hmi with h1 | h1
      · exact hI.rent_pos spi h1
      · rw [h1]
        exact hI.rent_pos sp (List.getElem?_mem hsp)
    · rw [setSpace_players, updatePlayer_keys]
      exact hI.keys_nodup
    · rw [setSpace_players]
      refine forall_mem_updatePlayer (fun kp hm _ => hI.name_eq kp hm) ?_
      intro kp hm hk
      have := hI.name_eq kp hm
      simpa [Player.buy_game_space, Player.withdraw] using this
    · rw [setSpace_players]
      refine forall_mem_updatePlayer (fun kp hm _ => hI.bal_nonneg kp hm) ?_
      intro kp hm hk
      have hkp2 : kp.2 = pl := mem_eq_of_getPlayer? hI.keys_nodup hp
        (by rw [← hk]; exact (by simpa using hm))
      simp only [Player.buy_game_space, Player.withdraw, hkp2]
      omega
    · rw [setSpace_players]
      refine forall_mem_updatePlayer (fun kp hm _ => hI.loc_lt kp hm) ?_
      intro kp hm hk
      simpa [Player.buy_game_space, Player.withdraw] using hI.loc_lt kp hm
    · rw [setSpace_players]
      refine forall_mem_updatePlayer (fun kp hm _ => hI.zero_owns_nothing kp hm) ?_
      intro kp hm hk
      have hkp2 : kp.2 = pl := mem_eq_of_getPlayer? hI.keys_nodup hp
        (by rw [← hk]; exact (by simpa using hm))
      simp only [Player.buy_game_space, Player.withdraw, hkp2]
      intro habs
      omega
    · rw [setSpace_players]
      refine forall_mem_updatePlayer (fun kp hm _ => hI.owned_nodup kp hm) ?_
      intro kp hm hk
      have hkp2 : kp.2 = pl := mem_eq_of_getPlayer? hI.keys_nodup hp
        (by rw [← hk]; exact (by simpa using hm))
      simp only [Player.buy_game_space, Player.withdraw, hkp2]
      simpa [List.nodup_append, hI.owned_nodup (name, pl) hmem] using hmnotin
    · rw [setSpace_players]
      have hboard : ∀ i, i ≠ pl.current_location →
          (setSpace (updatePlayer g name (fun p =>
            Player.buy_game_space (Player.withdraw p sp.purchase_price) m))
            pl.current_location (sp.set_game_space_owner name)).game_board[i]? =
            g.game_board[i]? := by
        intro i hi
        simp only [setSpace, updatePlayer_game_board]
        exact List.getElem?_set_ne (fun he => hi he.symm)
      refine forall_mem_updatePlayer ?_ ?_
      · intro kp hm hk i hi
        obtain ⟨spi, hspi, hspio⟩ := hI.owned_owner kp hm i hi
        have hiloc : i ≠ pl.current_location := by
          intro he
          rw [he, hsp] at hspi
          rw [← Option.some.inj hspi, hown] at hspio
          exact Option.noConfusion hspio
        rw [hboard i hiloc]
        exact ⟨spi, hspi, hspio⟩
      · intro kp hm hk i hi
        have hkp2 : kp.2 = pl := mem_eq_of_getPlayer? hI.keys_nodup hp
          (by rw [← hk]; exact (by simpa using hm))
        simp only [Player.buy_game_space, Player.withdraw, hkp2, List.mem_append,
          List.mem_singleton] at hi
        rcases hi with hi | hi
        · obtain ⟨spi, hspi, hspio⟩ := hI.owned_owner (name, pl) hmem i
            (by simpa using hi)
          have hiloc : i ≠ pl.current_location := by
            intro he
            rw [he, hsp] at hspi
            rw [← Option.some.inj hspi, hown] at hspio
            exact Option.noConfusion hspio
          rw [hboard i hiloc]
          exact ⟨spi, hspi, by simpa [hk] using hspio⟩
        · rw [hi, hmeq.1]
          refine ⟨sp.set_game_space_owner name, ?_, by simp [GameSpace.set_game_space_owner, hk]⟩
          simp only [setSpace, updatePlayer_game_board]
          exact List.getElem?_set_self hloc
    · intro i spi o hi how
      simp only [setSpace, updatePlayer_game_board, List.getElem?_set] at hi
      by_cases hiloc : pl.current_location = i
      · rw [if_pos hiloc, if_pos (hiloc ▸ hloc)] at hi
        rw [← Option.some.inj hi] at how
        have ho : o = name := by
          simpa [GameSpace.set_game_space_owner] using how.symm
        refine ⟨(name, Player.buy_game_space (Player.withdraw pl sp.purchase_price) m), ?_, ?_, ?_⟩
        · rw [setSpace_players]
          exact mem_updatePlayer_of_mem_eq hmem rfl
        · rw [ho]
        · simp [Player.buy_game_space, Player.withdraw, hmeq.1, hiloc]
      · rw [if_neg hiloc] at hi
        obtain ⟨q, hq, hq1, hq2⟩ := hI.owner_owned i spi o hi how
        rw [setSpace_players]
        by_cases hqn : q.1 = name
        · have hq2eq : q.2 = pl := mem_eq_of_getPlayer? hI.keys_nodup hp
            (by rw [← hqn]; exact (by simpa using hq))
          refine ⟨(q.1, Player.buy_game_space (Player.withdraw q.2 sp.purchase_price) m),
            mem_updatePlayer_of_mem_eq hq hqn, hq1, ?_⟩
          simp [Player.buy_game_space, Player.withdraw, hq2eq]
          exact Or.inl (hq2eq ▸ hq2)
        · exact ⟨q, mem_updatePlayer_of_mem_ne hq hqn, hq1, hq2⟩

/-- Updating one registry entry preserves the invariant as long as the
update only relocates the player within the board and leaves it with a
positive balance. -/
theorem inv_update_entry {g : RealEstateGame} {name : String} {pl : Player}
    {f : Player → Player}
    (hI : GameInv g) (hp : getPlayer? g name = some pl)
    (hnm : (f pl).player_name = pl.player_name)
    (howned : (f pl).owned_game_spaces = pl.owned_game_spaces)
    (hL : (f pl).current_location < 25)
    (hpos : 0 < (f pl).account_balance) :
    GameInv (updatePlayer g name f) := by
  have hmem : (name, pl) ∈ g.players := getPlayer?_mem hp
  have hval : ∀ kp ∈ g.players, kp.1 = name → kp.2 = pl := fun kp hm hk =>
    mem_eq_of_getPlayer? hI.keys_nodup hp (by rw [← hk]; exact (by simpa using hm))
  refine ⟨hI.board_len, hI.board_name, hI.rent_pos, ?_, ?_, ?_, ?_, ?_, ?_, ?_, ?_⟩
  · rw [updatePlayer_keys]; exact hI.keys_nodup
  · refine forall_mem_updatePlayer (fun kp hm _ => hI.name_eq kp hm) ?_
    intro kp hm hk
    show (f kp.2).player_name = kp.1
    rw [hval kp hm hk, hnm, hk]
    exact hval kp hm hk ▸ hk ▸ hI.name_eq kp hm
  · refine forall_mem_updatePlayer (fun kp hm _ => hI.bal_nonneg kp hm) ?_
    intro kp hm hk
    show 0 ≤ (f kp.2).account_balance
    rw [hval kp hm hk]
    exact le_of_lt hpos
  · refine forall_mem_updatePlayer (fun kp hm _ => hI.loc_lt kp hm) ?_
    intro kp hm hk
    show (f kp.2).current_location < 25
    rw [hval kp hm hk]
    exact hL
  · refine forall_mem_updatePlayer (fun kp hm _ => hI.zero_owns_nothing kp hm) ?_
    intro kp hm hk
    show (f kp.2).account_balance = 0 → (f kp.2).owned_game_spaces = []
    rw [hval kp hm hk]
    intro habs
    exact absurd habs (by omega)
  · refine forall_mem_updatePlayer (fun kp hm _ => hI.owned_nodup kp hm) ?_
    intro kp hm hk
    show (f kp.2).owned_game_spaces.Nodup
    rw [hval kp hm hk, howned]
    exact hI.owned_nodup (name, pl) hmem
  · refine forall_mem_updatePlayer ?_ ?_
    · intro kp hm _ i hi
      exact hI.owned_owner kp hm i hi
    · intro kp hm hk i hi
      rw [hval kp hm hk, howned] at hi
      obtain ⟨spi, hspi, hspio⟩ := hI.owned_owner (name, pl) hmem i hi
      exact ⟨spi, hspi, by rw [hk]; exact hspio⟩
  · intro i spi o hi how
    obtain ⟨q, hq, hq1, hq2⟩ := hI.owner_owned i spi o hi how
    by_cases hqn : q.1 = name
    · refine ⟨(q.1, f q.2), mem_updatePlayer_of_mem_eq hq hqn, hq1, ?_⟩
      rw [hval q hq hqn, howned]
      rw [hval q hq hqn] at hq2
      exact hq2
    · exact ⟨q, mem_updatePlayer_of_mem_ne hq hqn, hq1, hq2⟩

theorem inv_movement {g g1 : RealEstateGame} {name : String} {pl : Player} {n : Nat}
    (hI : GameInv g) (hp : getPlayer? g name = some pl) (h0 : pl.account_balance ≠ 0)
    (hmv : movement g name n = some g1) :
    GameInv g1 ∧ ∃ pl1, getPlayer? g1 name = some pl1 ∧
      0 < pl1.account_balance ∧ g1.game_board = g.game_board := by
  have hbpos : 0 < pl.account_balance :=
    lt_of_le_of_ne (hI.bal_nonneg (name, pl) (getPlayer?_mem hp)) (Ne.symm h0)
  obtain ⟨pl, hp', hcase⟩ := movement_elim hmv
  rw [hp] at hp'
  replace hp' := Option.some.inj hp'
  subst hp'
  rcases hcase with ⟨hlt, rfl⟩ | ⟨hge, gosp, hg0, rfl⟩
  · refine ⟨?_, Player.set_location pl (pl.current_location + n), ?_, ?_, rfl⟩
    · refine inv_update_entry hI hp rfl rfl ?_ ?_
      · show (Player.set_location pl (pl.current_location + n)).current_location < 25
        have := hI.board_len
        simp only [Player.set_location]
        omega
      · simpa [Player.set_location] using hbpos
    · rw [getPlayer?_updatePlayer_self, hp]; rfl
    · simpa [Player.set_location] using hbpos
  · have hrent : 0 < gosp.rent := hI.rent_pos gosp (List.getElem?_mem hg0)
    refine ⟨?_, Player.deposit
      (Player.set_location pl ((pl.current_location + n) % g.game_board.length))
      gosp.rent, ?_, ?_, rfl⟩
    · refine inv_update_entry hI hp rfl rfl ?_ ?_
      · show (Player.deposit (Player.set_location pl
            ((pl.current_location + n) % g.game_board.length)) gosp.rent).current_location < 25
        simp only [Player.deposit, Player.set_location]
        rw [hI.board_len]
        exact Nat.mod_lt _ (by omega)
      · show 0 < (Player.deposit (Player.set_location pl
            ((pl.current_location + n) % g.game_board.length)) gosp.rent).account_balance
        simp only [Player.deposit, Player.set_location]
        omega
    · rw [getPlayer?_updatePlayer_self, hp]; rfl
    · simp only [Player.deposit, Player.set_location]
      omega

theorem inv_big_rent {g1 : RealEstateGame} {name o : String} {pl1 : Player}
    (hI : GameInv g1) (hp : getPlayer? g1 name = some pl1) (h0 : 0 < pl1.account_balance)
    {g2 : RealEstateGame}
    (hlose : lose_game (updatePlayer (updatePlayer g1 name
        (fun p => Player.withdraw p pl1.account_balance)) o
        (fun p => Player.deposit p pl1.account_balance)) name = some g2) :
    GameInv g2 := by
  have hmem1 : (name, pl1) ∈ g1.players := getPlayer?_mem hp
  have hval1 : ∀ kp ∈ g1.players, kp.1 = name → kp.2 = pl1 := fun kp hm hk =>
    mem_eq_of_getPlayer? hI.keys_nodup hp (by rw [← hk]; exact (by simpa using hm))
  -- entry correspondence through the two balance transfers
  have hM : ∀ kp ∈ (updatePlayer g1 name
      (fun p => Player.withdraw p pl1.account_balance)).players,
      ∃ kq ∈ g1.players, kp.1 = kq.1 ∧
        kp.2.player_name = kq.2.player_name ∧
        kp.2.current_location = kq.2.current_location ∧
        kp.2.owned_game_spaces = kq.2.owned_game_spaces ∧
        0 ≤ kp.2.account_balance ∧
        (kp.2.account_balance = 0 → (kq.2.account_balance = 0 ∨ kp.1 = name)) := by
    refine forall_mem_updatePlayer ?_ ?_
    · intro kp hm _
      exact ⟨kp, hm, rfl, rfl, rfl, rfl, hI.bal_nonneg kp hm, fun h => Or.inl h⟩
    · intro kp hm hk
      refine ⟨kp, hm, rfl, rfl, rfl, rfl, ?_, fun _ => Or.inr hk⟩
      rw [hval1 kp hm hk]
      simp [Player.withdraw]
  have hS2 : ∀ kp ∈ (updatePlayer (updatePlayer g1 name
      (fun p => Player.withdraw p pl1.account_balance)) o
      (fun p => Player.deposit p pl1.account_balance)).players,
      ∃ kq ∈ g1.players, kp.1 = kq.1 ∧
        kp.2.player_name = kq.2.player_name ∧
        kp.2.current_location = kq.2.current_location ∧
        kp.2.owned_game_spaces = kq.2.owned_game_spaces ∧
        0 ≤ kp.2.account_balance ∧
        (kp.2.account_balance = 0 → (kq.2.account_balance = 0 ∨ kp.1 = name)) := by
    refine forall_mem_updatePlayer ?_ ?_
    · intro kp hm _
      exact hM kp hm
    · intro kp hm _
      obtain ⟨kq, hkq, h1, h2, h3, h4, h5, h6⟩ := hM kp hm
      refine ⟨kq, hkq, h1, h2, h3, h4, ?_, ?_⟩
      · simp only [Player.deposit]
        omega
      · intro habs
        simp only [Player.deposit] at habs
        exact absurd habs (by omega)
  obtain ⟨pl2, board', hp2, hfold, hg2⟩ := lose_game_inv hlose
  have hpl2owned : pl2.owned_game_spaces = pl1.owned_game_spaces := by
    obtain ⟨kq, hkq, h1, h2, h3, h4, h5, h6⟩ := hS2 (name, pl2) (getPlayer?_mem hp2)
    rw [h4, hval1 kq hkq h1.symm]
  have hrange : ∀ i ∈ pl2.owned_game_spaces,
      i < (updatePlayer (updatePlayer g1 name
        (fun p => Player.withdraw p pl1.account_balance)) o
        (fun p => Player.deposit p pl1.account_balance)).game_board.length := by
    intro i hi
    rw [hpl2owned] at hi
    obtain ⟨spi, hspi, _⟩ := hI.owned_owner (name, pl1) hmem1 i hi
    rw [updatePlayer_game_board, updatePlayer_game_board]
    exact (List.getElem?_eq_some.mp hspi).1
  obtain ⟨board'', hfold'', hblen, hbval⟩ := foldlM_remove_owner_spec _ _ hrange
  have hbb : board'' = board' := Option.some.inj (hfold''.symm.trans hfold)
  rw [hbb] at hblen hbval
  rw [updatePlayer_game_board, updatePlayer_game_board] at hblen
  simp only [updatePlayer_game_board] at hbval
  rw [hpl2owned] at hbval
  have hg2board : g2.game_board = board' := by rw [hg2]; rfl
  have hg2players : g2.players = (updatePlayer { (updatePlayer (updatePlayer g1 name
      (fun p => Player.withdraw p pl1.account_balance)) o
      (fun p => Player.deposit p pl1.account_balance)) with game_board := board' } name
      Player.clear_owned_game_spaces).players := by rw [hg2]
  have hfin : ∀ kp ∈ g2.players,
      ∃ kq ∈ g1.players, kp.1 = kq.1 ∧
        kp.2.player_name = kq.2.player_name ∧
        kp.2.current_location = kq.2.current_location ∧
        ((kp.2.owned_game_spaces = kq.2.owned_game_spaces ∧ kp.1 ≠ name) ∨
          (kp.1 = name ∧ kp.2.owned_game_spaces = [])) ∧
        0 ≤ kp.2.account_balance ∧
        (kp.2.account_balance = 0 →
          (kq.2.account_balance = 0 ∨ kp.1 = name)) := by
    rw [hg2players]
    refine forall_mem_updatePlayer ?_ ?_
    · intro kp hm hk
      obtain ⟨kq, hkq, h1, h2, h3, h4, h5, h6⟩ := hS2 kp hm
      exact ⟨kq, hkq, h1, h2, h3, Or.inl ⟨h4, hk⟩, h5, h6⟩
    · intro kp hm hk
      obtain ⟨kq, hkq, h1, h2, h3, h4, h5, h6⟩ := hS2 kp hm
      exact ⟨kq, hkq, h1, h2, h3, Or.inr ⟨hk, rfl⟩, h5, h6⟩
  have hkeys : g2.players.map Prod.fst = g1.players.map Prod.fst := by
    rw [hg2players, updatePlayer_keys]
    exact (updatePlayer_keys (updatePlayer g1 name
        (fun p => Player.withdraw p pl1.account_balance)) o
        (fun p => Player.deposit p pl1.account_balance)).trans
      (updatePlayer_keys g1 name (fun p => Player.withdraw p pl1.account_balance))
  have hboard_keep : ∀ i, i ∉ pl1.owned_game_spaces →
      g2.game_board[i]? = g1.game_board[i]? := by
    intro i hi
    rw [hg2board, hbval i, if_neg hi]
  have hboard_clear : ∀ i, i ∈ pl1.owned_game_spaces →
      g2.game_board[i]? = (g1.game_board[i]?).map GameSpace.remove_game_space_owner := by
    intro i hi
    rw [hg2board, hbval i, if_pos hi]
  -- a space held by a player other than the eliminated one is outside the cleared set
  have hnot_owned : ∀ (kq : String × Player), kq ∈ g1.players → kq.1 ≠ name →
      ∀ i ∈ kq.2.owned_game_spaces, i ∉ pl1.owned_game_spaces := by
    intro kq hkq hkne i hi hip
    obtain ⟨spi, hspi, hspio⟩ := hI.owned_owner kq hkq i hi
    obtain ⟨spj, hspj, hspjo⟩ := hI.owned_owner (name, pl1) hmem1 i hip
    rw [hspi] at hspj
    rw [← Option.some.inj hspj] at hspjo
    rw [hspio] at hspjo
    exact hkne (Option.some.inj hspjo)
  refine ⟨?_, ?_, ?_, ?_, ?_, ?_, ?_, ?_, ?_, ?_, ?_⟩
  · rw [hg2board, hblen]; exact hI.board_len
  · intro i spi hi
    by_cases hio : i ∈ pl1.owned_game_spaces
    · rw [hboard_clear i hio, Option.map_eq_some'] at hi
      obtain ⟨spj, hspj, hrm⟩ := hi
      rw [← hrm]
      exact hI.board_name i spj hspj
    · rw [hboard_keep i hio] at hi
      exact hI.board_name i spi hi
  · intro spi hmi
    obtain ⟨i, hi⟩ := List.mem_iff_getElem?.mp hmi
    by_cases hio : i ∈ pl1.owned_game_spaces
    · rw [hboard_clear i hio, Option.map_eq_some'] at hi
      obtain ⟨spj, hspj, hrm⟩ := hi
      rw [← hrm]
      exact hI.rent_pos spj (List.getElem?_mem hspj)
    · rw [hboard_keep i hio] at hi
      exact hI.rent_pos spi (List.getElem?_mem hi)
  · rw [hkeys]; exact hI.keys_nodup
  · intro kp hm
    obtain ⟨kq, hkq, h1, h2, _, _, _, _⟩ := hfin kp hm
    rw [h2, hI.name_eq kq hkq, h1]
  · intro kp hm
    exact (hfin kp hm).choose_spec.2.2.2.2.2.1
  · intro kp hm
    obtain ⟨kq, hkq, _, _, h3, _, _, _⟩ := hfin kp hm
    rw [h3]
    exact hI.loc_lt kq hkq
  · intro kp hm hz
    obtain ⟨kq, hkq, _, _, _, h4, _, h6⟩ := hfin kp hm
    rcases h4 with ⟨h4, hne⟩ | ⟨_, h4⟩
    · rcases h6 hz with h6 | h6
      · rw [h4]
        exact hI.zero_owns_nothing kq hkq h6
      · exact absurd h6 hne
    · exact h4
  · intro kp hm
    obtain ⟨kq, hkq, _, _, _, h4, _, _⟩ := hfin kp hm
    rcases h4 with ⟨h4, _⟩ | ⟨_, h4⟩
    · rw [h4]; exact hI.owned_nodup kq hkq
    · rw [h4]; exact List.nodup_nil
  · intro kp hm i hi
    obtain ⟨kq, hkq, h1, _, _, h4, _, _⟩ := hfin kp hm
    rcases h4 with ⟨h4, hne⟩ | ⟨_, h4⟩
    · rw [h4] at hi
      have hinot : i ∉ pl1.owned_game_spaces :=
        hnot_owned kq hkq (h1 ▸ hne) i hi
      obtain ⟨spi, hspi, hspio⟩ := hI.owned_owner kq hkq i hi
      rw [← hboard_keep i hinot] at hspi
      exact ⟨spi, hspi, by rw [h1]; exact hspio⟩
    · rw [h4] at hi
      exact absurd hi (List.not_mem_nil _)
  · intro i spi o' hi how
    by_cases hio : i ∈ pl1.owned_game_spaces
    · rw [hboard_clear i hio, Option.map_eq_some'] at hi
      obtain ⟨spj, _, hrm⟩ := hi
      rw [← hrm] at how
      exact absurd how (by simp [GameSpace.remove_game_space_owner])
    · rw [hboard_keep i hio] at hi
      obtain ⟨q, hq, hq1, hq2⟩ := hI.owner_owned i spi o' hi how
      have hqne : q.1 ≠ name := by
        intro he
        rw [hval1 q hq he] at hq2
        exact hio hq2
      have hq_m : q ∈ (updatePlayer g1 name
          (fun p => Player.withdraw p pl1.account_balance)).players :=
        mem_updatePlayer_of_mem_ne hq hqne
      rw [hg2players]
      by_cases hqo : q.1 = o
      · have hq_s2 : (q.1, Player.deposit q.2 pl1.account_balance) ∈
            (updatePlayer (updatePlayer g1 name
              (fun p => Player.withdraw p pl1.account_balance)) o
              (fun p => Player.deposit p pl1.account_balance)).players :=
          mem_updatePlayer_of_mem_eq hq_m hqo
        exact ⟨(q.1, Player.deposit q.2 pl1.account_balance),
          mem_updatePlayer_of_mem_ne hq_s2 hqne, hq1, hq2⟩
      · have hq_s2 : q ∈ (updatePlayer (updatePlayer g1 name
            (fun p => Player.withdraw p pl1.account_balance)) o
            (fun p => Player.deposit p pl1.account_balance)).players :=
          mem_updatePlayer_of_mem_ne hq_m hqo
        exact ⟨q, mem_updatePlayer_of_mem_ne hq_s2 hqne, hq1, hq2⟩

theorem inv_pay_rent {g1 g2 : RealEstateGame} {name : String} {pl1 : Player}
    (hI : GameInv g1) (hp : getPlayer? g1 name = some pl1) (h0 : 0 < pl1.account_balance)
    (hpr : pay_rent g1 name = some g2) : GameInv g2 := by
  obtain ⟨pl1, sp, hp', hsp, hcase⟩ := pay_rent_elim hpr
  rw [hp] at hp'
  replace hp' := Option.some.inj hp'
  subst hp'
  rcases hcase with ⟨_, rfl⟩ | ⟨_, rfl⟩ | ⟨o, plo, how, hgo, hpo, hcase2⟩
  · exact hI
  · exact hI
  · have hrent : 0 < sp.rent := hI.rent_pos sp (List.getElem?_mem hsp)
    rcases hcase2 with ⟨hlt, rfl⟩ | ⟨hge, hlose⟩
    · have hmemo : (o, plo) ∈ g1.players := getPlayer?_mem hpo
      have hIM : GameInv (updatePlayer g1 name (fun p => Player.withdraw p sp.rent)) := by
        refine inv_update_entry hI hp rfl rfl ?_ ?_
        · show pl1.current_location < 25
          exact hI.loc_lt (name, pl1) (getPlayer?_mem hp)
        · show 0 < pl1.account_balance - sp.rent
          omega
      by_cases hon : o = name
      · subst hon
        have hpM : getPlayer? (updatePlayer g1 o (fun p => Player.withdraw p sp.rent)) o =
            some (Player.withdraw pl1 sp.rent) := by
          rw [getPlayer?_updatePlayer_self, hp]
          rfl
        refine inv_update_entry hIM hpM rfl rfl ?_ ?_
        · show pl1.current_location < 25
          exact hI.loc_lt (o, pl1) (getPlayer?_mem hp)
        · show 0 < pl1.account_balance - sp.rent + sp.rent
          omega
      · have hpM : getPlayer? (updatePlayer g1 name (fun p => Player.withdraw p sp.rent)) o =
            some plo := by
          rw [getPlayer?_updatePlayer_ne g1 name o _ hon, hpo]
        refine inv_update_entry hIM hpM rfl rfl ?_ ?_
        · show plo.current_location < 25
          exact hI.loc_lt (o, plo) hmemo
        · show 0 < plo.account_balance + sp.rent
          have hplo : 0 ≤ plo.account_balance := hI.bal_nonneg (o, plo) hmemo
          omega
    · exact inv_big_rent hI hp h0 hlose

theorem inv_move {g g' : RealEstateGame} {name : String} {n : Nat}
    (hI : GameInv g) (h : move_player g name n = some g') : GameInv g' := by
  obtain ⟨pl, hp, hcase⟩ := move_player_elim h
  rcases hcase with ⟨_, rfl⟩ | ⟨h0, g1, hmv, hpr⟩
  · exact hI
  · obtain ⟨hI1, pl1, hp1, hpos1, _⟩ := inv_movement hI hp h0 hmv
    exact inv_pay_rent hI1 hp1 hpos1 hpr

theorem Reach.trans {g0 g g' : RealEstateGame} (h1 : Reach g0 g) (h2 : Reach g g') :
    Reach g0 g' := by
  induction h2 with
  | refl => exact h1
  | create name bal hbal h ih => exact Reach.create name bal hbal ih
  | buy name b h hstep ih => exact Reach.buy name b ih hstep
  | move name n h hstep ih => exact Reach.move name n ih hstep

/-- Every reachable state of a well-formed game satisfies the
invariant. -/
theorem reach_inv {go : Int} {rents : List Int} {g : RealEstateGame}
    (hgo : 0 < go) (hlen : rents.length = 24) (hpos : ∀ r ∈ rents, 0 < r)
    (h : Reach (initial_game go rents) g) : GameInv g := by
  induction h with
  | refl => exact inv_init go rents hgo hlen hpos
  | create name bal hbal h ih => exact inv_create name bal hbal ih
  | buy name b h hstep ih => exact inv_buy ih hstep
  | move name n h hstep ih => exact inv_move ih hstep

/-! ### Claim theorems -/

theorem getPlayer?_set_board (g : RealEstateGame) (b : List GameSpace) (k : String) :
    getPlayer? { g with game_board := b } k = getPlayer? g k := rfl

/-- C9: calling `create_player` with a name that is already registered
returns the whole game state unchanged, together with the non-fatal
duplicate-name signal (the printed notice), and overwrites nothing. -/
theorem create_player_duplicate_noop {g : RealEstateGame} {name : String} {pl : Player}
    (hp : getPlayer? g name = some pl) (bal : Int) :
    create_player g name bal = (g, true) := by
  simp [create_player, hp]

theorem create_player_duplicate_noop_witness :
    getPlayer? demo_game0 "A" = some (Player.mk "A" 1000 0 []) ∧
    create_player demo_game0 "A" 500 = (demo_game0, true) :=
  ⟨by decide,
    @create_player_duplicate_noop demo_game0 "A" (Player.mk "A" 1000 0 []) (by decide) 500⟩

/-- C7: `lose_game` clears the owner field of every space in the
player's owned list and leaves every other space alone, empties the
player's owned list while keeping the player registered with the same
balance and position, and changes no other player's record. -/
theorem lose_game_elimination_spec {g : RealEstateGame} {name : String} {pl : Player}
    (hp : getPlayer? g name = some pl)
    (hrange : ∀ i ∈ pl.owned_game_spaces, i < g.game_board.length) :
    ∃ g', lose_game g name = some g' ∧
      getPlayer? g' name = some (Player.mk pl.player_name pl.account_balance
        pl.current_location []) ∧
      (∀ k, k ≠ name → getPlayer? g' k = getPlayer? g k) ∧
      (∀ j, j ∈ pl.owned_game_spaces →
        g'.game_board[j]? = (g.game_board[j]?).map GameSpace.remove_game_space_owner) ∧
      (∀ j, j ∉ pl.owned_game_spaces → g'.game_board[j]? = g.game_board[j]?) := by
  obtain ⟨board', hfold, heq, hlen, hval⟩ := lose_game_eq g name pl hp hrange
  refine ⟨_, heq, ?_, ?_, ?_, ?_⟩
  · rw [getPlayer?_updatePlayer_self, getPlayer?_set_board, hp]
    rfl
  · intro k hk
    rw [getPlayer?_updatePlayer_ne _ _ _ _ hk, getPlayer?_set_board]
  · intro j hj
    rw [updatePlayer_game_board]
    show board'[j]? = _
    rw [hval j, if_pos hj]
  · intro j hj
    rw [updatePlayer_game_board]
    show board'[j]? = _
    rw [hval j, if_neg hj]

theorem lose_game_elimination_spec_witness :
    getPlayer? c5_other_game "B" = some (Player.mk "B" 700 2 [1, 2]) ∧
    (∀ i ∈ (Player.mk "B" 700 2 [1, 2] : Player).owned_game_spaces,
      i < c5_other_game.game_board.length) ∧
    (∃ g', lose_game c5_other_game "B" = some g' ∧
      getPlayer? g' "B" = some (Player.mk "B" 700 2 []) ∧
      (∀ k, k ≠ "B" → getPlayer? g' k = getPlayer? c5_other_game k) ∧
      (∀ j, j ∈ (Player.mk "B" 700 2 [1, 2] : Player).owned_game_spaces →
        g'.game_board[j]? =
          (c5_other_game.game_board[j]?).map GameSpace.remove_game_space_owner) ∧
      (∀ j, j ∉ (Player.mk "B" 700 2 [1, 2] : Player).owned_game_spaces →
        g'.game_board[j]? = c5_other_game.game_board[j]?)) :=
  ⟨by decide, by decide,
    @lose_game_elimination_spec c5_other_game "B" (Player.mk "B" 700 2 [1, 2])
      (by decide) (by decide)⟩

/-- C4: moving an active player at position pos by n spaces with
rawTarget = pos + n: if rawTarget < 24 the player is simply relocated
to rawTarget with no GO payout; if rawTarget >= 24 (including exactly
24) the player lands on rawTarget mod 25 and the GO payout is
deposited exactly once, wherever the landing space is. -/
theorem movement_wraparound_spec {g : RealEstateGame} {name : String} {pl : Player}
    {gosp : GameSpace} (n : Nat)
    (hp : getPlayer? g name = some pl) (_hact : 0 < pl.account_balance)
    (hlen : g.game_board.length = 25) (hg0 : g.game_board[0]? = some gosp) :
    (pl.current_location + n < 24 →
      ∃ g', movement g name n = some g' ∧
        getPlayer? g' name = some (Player.mk pl.player_name pl.account_balance
          (pl.current_location + n) pl.owned_game_spaces) ∧
        (∀ k, k ≠ name → getPlayer? g' k = getPlayer? g k) ∧
        g'.game_board = g.game_board) ∧
    (24 ≤ pl.current_location + n →
      ∃ g', movement g name n = some g' ∧
        getPlayer? g' name = some (Player.mk pl.player_name
          (pl.account_balance + gosp.rent) ((pl.current_location + n) % 25)
          pl.owned_game_spaces) ∧
        (∀ k, k ≠ name → getPlayer? g' k = getPlayer? g k) ∧
        g'.game_board = g.game_board) := by
  constructor
  · intro hlt
    have hlt' : pl.current_location + n < g.game_board.length - 1 := by
      rw [hlen]; omega
    refine ⟨_, movement_lt hp hlt', ?_, ?_, rfl⟩
    · rw [getPlayer?_updatePlayer_self, hp]
      rfl
    · intro k hk
      exact getPlayer?_updatePlayer_ne _ _ _ _ hk
  · intro hge
    have hge' : ¬pl.current_location + n < g.game_board.length - 1 := by
      rw [hlen]; omega
    refine ⟨_, movement_ge hp hge' hg0, ?_, ?_, rfl⟩
    · rw [getPlayer?_updatePlayer_self, hp, hlen]
      rfl
    · intro k hk
      exact getPlayer?_updatePlayer_ne _ _ _ _ hk

theorem movement_wraparound_spec_witness :
    getPlayer? w3_game "A" = some (Player.mk "A" 1000 1 []) ∧
    (0 : Int) < 1000 ∧ w3_game.game_board.length = 25 ∧
    w3_game.game_board[0]? = some (GameSpace.make SpaceName.go 200) ∧
    ((1 + 30 < 24 →
      ∃ g', movement w3_game "A" 30 = some g' ∧
        getPlayer? g' "A" = some (Player.mk "A" 1000 (1 + 30) []) ∧
        (∀ k, k ≠ "A" → getPlayer? g' k = getPlayer? w3_game k) ∧
        g'.game_board = w3_game.game_board) ∧
     (24 ≤ 1 + 30 →
      ∃ g', movement w3_game "A" 30 = some g' ∧
        getPlayer? g' "A" = some (Player.mk "A" (1000 + (GameSpace.make SpaceName.go 200).rent)
          ((1 + 30) % 25) []) ∧
        (∀ k, k ≠ "A" → getPlayer? g' k = getPlayer? w3_game k) ∧
        g'.game_board = w3_game.game_board)) :=
  ⟨by decide, by decide, by decide, by decide,
    @movement_wraparound_spec w3_game "A" (Player.mk "A" 1000 1 [])
      (GameSpace.make SpaceName.go 200) 30 (by decide) (by decide) (by decide) (by decide)⟩

/-- C3: `buy_space` succeeds exactly when the player is active, the
current space is neither GO nor owned, and the balance strictly exceeds
the purchase price; on success exactly the price is withdrawn, the
space's name is appended to the owned list and the player becomes the
owner, touching nothing else; on failure the state is returned
unchanged. -/
theorem buy_space_spec {g : RealEstateGame} {name : String} {pl : Player} {sp : GameSpace}
    (hp : getPlayer? g name = some pl)
    (hsp : g.game_board[pl.current_location]? = some sp)
    (hprice : 0 ≤ sp.purchase_price) :
    ∃ b g', buy_space g name = some (b, g') ∧
      (b = true ↔ (0 < pl.account_balance ∧ sp.game_space_name ≠ SpaceName.go ∧
        sp.game_space_owner = none ∧ sp.purchase_price < pl.account_balance)) ∧
      (b = false → g' = g) ∧
      (b = true → ∃ m, sp.game_space_name = SpaceName.num m ∧
        getPlayer? g' name = some (Player.mk pl.player_name
          (pl.account_balance - sp.purchase_price) pl.current_location
          (pl.owned_game_spaces ++ [m])) ∧
        g'.game_board[pl.current_location]? = some (GameSpace.mk sp.game_space_name sp.rent
          sp.purchase_price (some name)) ∧
        (∀ k, k ≠ name → getPlayer? g' k = getPlayer? g k) ∧
        (∀ j, j ≠ pl.current_location → g'.game_board[j]? = g.game_board[j]?)) := by
  by_cases hguard : pl.account_balance = 0 ∨ sp.game_space_owner.isSome
      ∨ sp.game_space_name = SpaceName.go ∨ pl.account_balance ≤ sp.purchase_price
  · refine ⟨false, g, buy_space_fail hp hsp hguard, ?_, fun _ => rfl, ?_⟩
    · constructor
      · intro h
        exact absurd h (by simp)
      · rintro ⟨hb, hn, ho, hpr⟩
        rcases hguard with h | h | h | h
        · omega
        · rw [ho] at h
          simp at h
        · exact absurd h hn
        · omega
    · intro h
      exact absurd h (by simp)
  · have hguard0 := hguard
    push_neg at hguard
    obtain ⟨hb0, hown', hngo, hpr⟩ := hguard
    have hown : sp.game_space_owner = none :=
      Option.not_isSome_iff_eq_none.mp (by simpa using hown')
    have hbpos : 0 < pl.account_balance := by omega
    cases hname : sp.game_space_name with
    | go => exact absurd hname hngo
    | num m =>
        have hloc : pl.current_location < g.game_board.length :=
          (List.getElem?_eq_some.mp hsp).1
        refine ⟨true, _, buy_space_succeed hp hsp hguard0 hname, ?_, ?_, ?_⟩
        · simp only [true_iff]
          refine ⟨hbpos, ?_, hown, hpr⟩
          rw [← hname]
          exact hngo
        · intro h
          exact absurd h (by simp)
        · intro _
          refine ⟨m, rfl, ?_, ?_, ?_, ?_⟩
          · rw [getPlayer?_setSpace, getPlayer?_updatePlayer_self, hp]
            rfl
          · show (g.game_board.set pl.current_location _)[pl.current_location]? = _
            rw [List.getElem?_set_self hloc]
            rw [← hname]
            rfl
          · intro k hk
            rw [getPlayer?_setSpace, getPlayer?_updatePlayer_ne _ _ _ _ hk]
          · intro j hj
            show (g.game_board.set pl.current_location _)[j]? = _
            exact List.getElem?_set_ne (fun he => hj he.symm)

theorem buy_space_spec_witness :
    getPlayer? w3_game "A" = some (Player.mk "A" 1000 1 []) ∧
    w3_game.game_board[(Player.mk "A" 1000 1 [] : Player).current_location]? =
      some (GameSpace.make (SpaceName.num 1) 50) ∧
    (0 : Int) ≤ (GameSpace.make (SpaceName.num 1) 50).purchase_price ∧
    (∃ b g', buy_space w3_game "A" = some (b, g') ∧
      (b = true ↔ ((0 : Int) < 1000 ∧
        (GameSpace.make (SpaceName.num 1) 50).game_space_name ≠ SpaceName.go ∧
        (GameSpace.make (SpaceName.num 1) 50).game_space_owner = none ∧
        (GameSpace.make (SpaceName.num 1) 50).purchase_price < 1000)) ∧
      (b = false → g' = w3_game) ∧
      (b = true → ∃ m,
        (GameSpace.make (SpaceName.num 1) 50).game_space_name = SpaceName.num m ∧
        getPlayer? g' "A" = some (Player.mk "A"
          (1000 - (GameSpace.make (SpaceName.num 1) 50).purchase_price) 1 ([] ++ [m])) ∧
        g'.game_board[1]? = some (GameSpace.mk
          (GameSpace.make (SpaceName.num 1) 50).game_space_name
          (GameSpace.make (SpaceName.num 1) 50).rent
          (GameSpace.make (SpaceName.num 1) 50).purchase_price (some "A")) ∧
        (∀ k, k ≠ "A" → getPlayer? g' k = getPlayer? w3_game k) ∧
        (∀ j, j ≠ (Player.mk "A" 1000 1 [] : Player).current_location →
          g'.game_board[j]? = w3_game.game_board[j]?))) :=
  ⟨by decide, by decide, by decide,
    @buy_space_spec w3_game "A" (Player.mk "A" 1000 1 [])
      (GameSpace.make (SpaceName.num 1) 50) (by decide) (by decide) (by decide)⟩

/-- C5 counterexample: when the lander is the recorded owner of the
space and the rent (50) is at least the balance (30), the balance does
not become 0 (the transfer goes back to the same account) even though
the claim's elimination branch demands it. -/
theorem pay_rent_self_owner_not_eliminated :
    getPlayer? c5_game "A" = some (Player.mk "A" 30 1 [1]) ∧
    (c5_game.game_board[1]?).map GameSpace.game_space_owner = some (some "A") ∧
    (c5_game.game_board[1]?).map GameSpace.rent = some 50 ∧
    (30 : Int) ≤ 50 ∧
    (pay_rent c5_game "A").map (fun gg => (getPlayer? gg "A").map Player.account_balance) =
      some (some 30) ∧
    (30 : Int) ≠ 0 := by decide

/-- C5 (amended to owners distinct from the lander): if the landed
space is owned by a player other than none/GO and other than the lander
then rent below the balance moves exactly the rent from lander to
owner, while rent at least the balance (equality included) moves the
whole remaining balance to the owner, zeroes the lander and eliminates
them (owned list emptied, every previously owned space released). -/
theorem pay_rent_other_owner_spec {g : RealEstateGame} {name o : String} {pl plo : Player}
    {sp : GameSpace}
    (hp : getPlayer? g name = some pl)
    (hsp : g.game_board[pl.current_location]? = some sp)
    (how : sp.game_space_owner = some o) (hgo : o ≠ "GO") (hon : o ≠ name)
    (hpo : getPlayer? g o = some plo)
    (hrange : ∀ i ∈ pl.owned_game_spaces, i < g.game_board.length) :
    (sp.rent < pl.account_balance →
      ∃ g', pay_rent g name = some g' ∧
        (getPlayer? g' name).map Player.account_balance =
          some (pl.account_balance - sp.rent) ∧
        (getPlayer? g' o).map Player.account_balance =
          some (plo.account_balance + sp.rent) ∧
        (getPlayer? g' name).map Player.owned_game_spaces = some pl.owned_game_spaces ∧
        g'.game_board = g.game_board) ∧
    (pl.account_balance ≤ sp.rent →
      ∃ g', pay_rent g name = some g' ∧
        (getPlayer? g' name).map Player.account_balance = some 0 ∧
        (getPlayer? g' o).map Player.account_balance =
          some (plo.account_balance + pl.account_balance) ∧
        (getPlayer? g' name).map Player.owned_game_spaces = some ([] : List Nat) ∧
        (∀ i ∈ pl.owned_game_spaces,
          (g'.game_board[i]?).map GameSpace.game_space_owner = some none)) := by
  have hne_no : name ≠ o := fun he => hon he.symm
  constructor
  · intro hlt
    refine ⟨_, pay_rent_small hp hsp how hgo hpo hlt, ?_, ?_, ?_, rfl⟩
    · rw [getPlayer?_updatePlayer_ne _ _ _ _ hne_no, getPlayer?_updatePlayer_self, hp]
      rfl
    · rw [getPlayer?_updatePlayer_self, getPlayer?_updatePlayer_ne _ _ _ _ hon, hpo]
      rfl
    · rw [getPlayer?_updatePlayer_ne _ _ _ _ hne_no, getPlayer?_updatePlayer_self, hp]
      rfl
  · intro hge
    have hge' : ¬sp.rent < pl.account_balance := by omega
    have hprS2 : pay_rent g name = lose_game (updatePlayer (updatePlayer g name
        (fun p => Player.withdraw p pl.account_balance)) o
        (fun p => Player.deposit p pl.account_balance)) name :=
      pay_rent_big hp hsp how hgo hpo hge'
    have hpS2 : getPlayer? (updatePlayer (updatePlayer g name
        (fun p => Player.withdraw p pl.account_balance)) o
        (fun p => Player.deposit p pl.account_balance)) name =
        some (Player.withdraw pl pl.account_balance) := by
      rw [getPlayer?_updatePlayer_ne _ _ _ _ hne_no, getPlayer?_updatePlayer_self, hp]
      rfl
    have hrange2 : ∀ i ∈ (Player.withdraw pl pl.account_balance).owned_game_spaces,
        i < (updatePlayer (updatePlayer g name
          (fun p => Player.withdraw p pl.account_balance)) o
          (fun p => Player.deposit p pl.account_balance)).game_board.length := by
      intro i hi
      rw [updatePlayer_game_board, updatePlayer_game_board]
      exact hrange i hi
    obtain ⟨board', hfold, heq, hlen, hval⟩ := lose_game_eq _ name _ hpS2 hrange2
    refine ⟨_, hprS2.trans heq, ?_, ?_, ?_, ?_⟩
    · rw [getPlayer?_updatePlayer_self, getPlayer?_set_board, hpS2]
      show some (pl.account_balance - pl.account_balance) = some 0
      rw [sub_self]
    · rw [getPlayer?_updatePlayer_ne _ _ _ _ hon, getPlayer?_set_board,
        getPlayer?_updatePlayer_self, getPlayer?_updatePlayer_ne _ _ _ _ hon, hpo]
      rfl
    · rw [getPlayer?_updatePlayer_self, getPlayer?_set_board, hpS2]
      rfl
    · intro i hi
      rw [updatePlayer_game_board]
      show (board'[i]?).map _ = _
      rw [hval i]
      rw [if_pos (show i ∈ (Player.withdraw pl pl.account_balance).owned_game_spaces from hi)]
      rw [updatePlayer_game_board, updatePlayer_game_board]
      have hspi := List.getElem?_eq_getElem (hrange i hi)
      rw [hspi]
      rfl

theorem pay_rent_other_owner_spec_witness :
    getPlayer? c5_other_game "A" = some (Player.mk "A" 30 1 []) ∧
    c5_other_game.game_board[(1 : Nat)]? =
      some (GameSpace.mk (SpaceName.num 1) 50 250 (some "B")) ∧
    ("B" : String) ≠ "GO" ∧ ("B" : String) ≠ "A" ∧
    getPlayer? c5_other_game "B" = some (Player.mk "B" 700 2 [1, 2]) ∧
    (((GameSpace.mk (SpaceName.num 1) 50 250 (some "B")).rent < (30 : Int) →
      ∃ g', pay_rent c5_other_game "A" = some g' ∧
        (getPlayer? g' "A").map Player.account_balance = some ((30 : Int) - 50) ∧
        (getPlayer? g' "B").map Player.account_balance = some ((700 : Int) + 50) ∧
        (getPlayer? g' "A").map Player.owned_game_spaces = some ([] : List Nat) ∧
        g'.game_board = c5_other_game.game_board) ∧
     ((30 : Int) ≤ 50 →
      ∃ g', pay_rent c5_other_game "A" = some g' ∧
        (getPlayer? g' "A").map Player.account_balance = some 0 ∧
        (getPlayer? g' "B").map Player.account_balance = some ((700 : Int) + 30) ∧
        (getPlayer? g' "A").map Player.owned_game_spaces = some ([] : List Nat) ∧
        (∀ i ∈ ([] : List Nat),
          (g'.game_board[i]?).map GameSpace.game_space_owner = some none))) :=
  ⟨by decide, by decide, by decide, by decide, by decide,
    @pay_rent_other_owner_spec c5_other_game "A" "B" (Player.mk "A" 30 1 [])
      (Player.mk "B" 700 2 [1, 2]) (GameSpace.mk (SpaceName.num 1) 50 250 (some "B"))
      (by decide) (by decide) (by decide) (by decide) (by decide) (by decide) (by decide)⟩

/-- The three-player run ending with B eliminated is reachable. -/
theorem demo_game3_reachable : Reach (initial_game 200 flat_rents) demo_game3 :=
  Reach.move "B" 1
    (Reach.buy "A" true
      (Reach.move "A" 1
        (Reach.create "C" 1000 (by omega)
          (Reach.create "B" 30 (by omega)
            (Reach.create "A" 1000 (by omega) Reach.refl)))
        (by rfl))
      (by rfl))
    (by rfl)

/-- C1 (code bug): with three registered players of which exactly one
has balance zero, `check_game_over` returns the name of the last player
seen with a nonzero balance instead of the empty string: the code
compares the count of eliminated players to 1, not to N-1. -/
theorem check_game_over_single_elimination_bug :
    demo_game3.players.length = 3 ∧
    (demo_game3.players.filter (fun kp => kp.2.account_balance == 0)).length = 1 ∧
    check_game_over demo_game3 = some "C" ∧
    ("C" : String) ≠ "" ∧
    (getPlayer? demo_game3 "A").map Player.account_balance = some 780 ∧
    (getPlayer? demo_game3 "C").map Player.account_balance = some 1000 := by decide

/-- The self-landing run is reachable. -/
theorem c2_game7_reachable : Reach (initial_game 5 c2_rents) c2_game7 :=
  Reach.move "A" 15
    (Reach.move "A" 10
      (Reach.buy "B" true
        (Reach.move "B" 20
          (Reach.buy "A" true
            (Reach.move "A" 10
              (Reach.create "B" 2000 (by omega)
                (Reach.create "A" 600 (by omega) Reach.refl))
              (by rfl))
            (by rfl))
          (by rfl))
        (by rfl))
      (by rfl))
    (by rfl)

/-- C2 (code bug): a player landing on their own space with rent at
least their balance keeps a positive balance (the transfer returns to
their own account) yet `lose_game` is invoked: their owned list is
emptied and the space's owner field is cleared while the owner's
balance is positive.  The code's own docstring promises rent only on a
space "owned by another player". -/
theorem self_landing_rent_clears_ownership_bug :
    getPlayer? c2_game6 "A" = some (Player.mk "A" 50 10 [10]) ∧
    (c2_game6.game_board[10]?).map GameSpace.game_space_owner = some (some "A") ∧
    (c2_game6.game_board[10]?).map GameSpace.rent = some 50 ∧
    pay_rent c2_game6 "A" = some c2_game7 ∧
    move_player c2_game5 "A" 15 = some c2_game7 ∧
    getPlayer? c2_game7 "A" = some (Player.mk "A" 50 10 []) ∧
    (c2_game7.game_board[10]?).map GameSpace.game_space_owner = some none ∧
    (50 : Int) ≠ 0 := by decide

theorem foldlM_remove_owner_range {l : List Nat} {b b' : List GameSpace}
    (h : l.foldlM remove_owner_at b = some b') : ∀ n ∈ l, n < b.length := by
  induction l generalizing b with
  | nil => intro n hn; exact absurd hn (List.not_mem_nil _)
  | cons m rest ih =>
      rw [List.foldlM_cons] at h
      simp only [Option.bind_eq_bind, Option.bind_eq_some] at h
      obtain ⟨b1, hb1, hrest⟩ := h
      simp only [remove_owner_at, Option.bind_eq_bind, Option.bind_eq_some] at hb1
      obtain ⟨sp, hsp, hb1eq⟩ := hb1
      have hm : m < b.length := (List.getElem?_eq_some.mp hsp).1
      have hb1len : b1.length = b.length := by
        rw [← Option.some.inj hb1eq, List.length_set]
      intro n hn
      rcases List.mem_cons.mp hn with rfl | hn
      · exact hm
      · rw [← hb1len]
        exact ih hrest n hn

/-- A player with balance zero owning no board space stays untouched by
every later public operation, and no space ever acquires them as
owner. -/
theorem frozen_preserved {g g' : RealEstateGame} {p : String} {pl : Player}
    (hstep : Reach g g')
    (hp : getPlayer? g p = some pl) (h0 : pl.account_balance = 0)
    (hnotowner : ∀ (i : Nat) (sp : GameSpace), g.game_board[i]? = some sp →
      sp.game_space_owner ≠ some p) :
    getPlayer? g' p = some pl ∧
      ∀ (i : Nat) (sp : GameSpace), g'.game_board[i]? = some sp →
        sp.game_space_owner ≠ some p := by
  induction hstep with
  | refl => exact ⟨hp, hnotowner⟩
  | @create gmid name bal hbal h ih =>
      obtain ⟨ihp, ihno⟩ := ih
      by_cases hreg : (getPlayer? gmid name).isSome
      · have hcp : (create_player gmid name bal).1 = gmid := by
          simp [create_player, hreg]
        rw [hcp]
        exact ⟨ihp, ihno⟩
      · have hcp : (create_player gmid name bal).1 =
            { gmid with players := gmid.players ++ [(name, Player.make name bal)] } := by
          simp [create_player, hreg]
        rw [hcp]
        exact ⟨getPlayer?_append_of_some _ ihp, fun i sp hi => ihno i sp hi⟩
  | @buy gmid g2 name b h hstep ih =>
      obtain ⟨ihp, ihno⟩ := ih
      obtain ⟨plb, sp, hpb, hspb, hcase⟩ := buy_space_elim hstep
      rcases hcase with ⟨_, rfl, _⟩ | ⟨_, hguard, m, hname, rfl⟩
      · exact ⟨ihp, ihno⟩
      · have hnp : name ≠ p := by
          intro he
          subst he
          rw [ihp] at hpb
          have hpe : plb = pl := (Option.some.inj hpb).symm
          push_neg at hguard
          exact hguard.1 (by rw [hpe, h0])
        constructor
        · rw [getPlayer?_setSpace, getPlayer?_updatePlayer_ne _ _ _ _ (Ne.symm hnp)]
          exact ihp
        · intro i spi hi
          simp only [setSpace, updatePlayer_game_board, List.getElem?_set] at hi
          by_cases hiloc : plb.current_location = i
          · rw [if_pos hiloc] at hi
            by_cases hlt : plb.current_location < gmid.game_board.length
            · rw [if_pos hlt] at hi
              rw [← Option.some.inj hi]
              intro habs
              exact hnp (by simpa [GameSpace.set_game_space_owner] using habs)
            · rw [if_neg hlt] at hi
              exact absurd hi (by simp)
          · rw [if_neg hiloc] at hi
            exact ihno i spi hi
  | @move gmid g2 name n h hstep ih =>
      obtain ⟨ihp, ihno⟩ := ih
      obtain ⟨plm, hpm, hcase⟩ := move_player_elim hstep
      rcases hcase with ⟨_, rfl⟩ | ⟨hb0, g1, hmv, hpr⟩
      · exact ⟨ihp, ihno⟩
      · have hnp : name ≠ p := by
          intro he
          subst he
          rw [ihp] at hpm
          exact hb0 (by rw [← Option.some.inj hpm]; exact h0)
        obtain ⟨plm2, hpm2, hmvcase⟩ := movement_elim hmv
        have hg1 : getPlayer? g1 p = some pl ∧
            (∀ (i : Nat) (sp : GameSpace), g1.game_board[i]? = some sp →
              sp.game_space_owner ≠ some p) := by
          rcases hmvcase with ⟨_, rfl⟩ | ⟨_, gosp, hg0, rfl⟩ <;>
            exact ⟨by rw [getPlayer?_updatePlayer_ne _ _ _ _ (Ne.symm hnp)]; exact ihp,
              fun i sp hi => ihno i sp hi⟩
        obtain ⟨plr, spr, hpr1, hspr, hrcase⟩ := pay_rent_elim hpr
        rcases hrcase with ⟨_, rfl⟩ | ⟨_, rfl⟩ | ⟨o, plo, how, hgoo, hpo2, hrcase2⟩
        · exact hg1
        · exact hg1
        · have hop : o ≠ p := by
            intro he
            exact (hg1.2 _ _ hspr) (by rw [how, he])
          have hpne_o : p ≠ o := fun he => hop he.symm
          have hpne_name : p ≠ name := fun he => hnp he.symm
          rcases hrcase2 with ⟨hlt, rfl⟩ | ⟨hge, hlose⟩
          · constructor
            · rw [getPlayer?_updatePlayer_ne _ _ _ _ hpne_o,
                getPlayer?_updatePlayer_ne _ _ _ _ hpne_name]
              exact hg1.1
            · intro i spi hi
              exact hg1.2 i spi hi
          · obtain ⟨pl2, board', hp2, hfold, rfl⟩ := lose_game_inv hlose
            have hrange := foldlM_remove_owner_range hfold
            obtain ⟨board'', hfold'', hblen, hbval⟩ :=
              foldlM_remove_owner_spec _ _ hrange
            have hbb : board'' = board' := Option.some.inj (hfold''.symm.trans hfold)
            rw [hbb] at hbval
            constructor
            · rw [getPlayer?_updatePlayer_ne _ _ _ _ hpne_name, getPlayer?_set_board,
                getPlayer?_updatePlayer_ne _ _ _ _ hpne_o,
                getPlayer?_updatePlayer_ne _ _ _ _ hpne_name]
              exact hg1.1
            · intro i spi hi
              rw [updatePlayer_game_board] at hi
              have hi2 : board'[i]? = some spi := hi
              rw [hbval i] at hi2
              by_cases hio : i ∈ pl2.owned_game_spaces
              · rw [if_pos hio, Option.map_eq_some'] at hi2
                obtain ⟨spj, _, hrm⟩ := hi2
                rw [← hrm]
                simp [GameSpace.remove_game_space_owner]
              · rw [if_neg hio] at hi2
                exact hg1.2 i spi hi2

/-- C6: once a registered player's balance is exactly zero, every later
sequence of public operations leaves their record (balance, position,
owned list) untouched; `move_player` on them returns the whole state
unchanged and `buy_space` on them returns false with the state
unchanged. -/
theorem eliminated_player_frozen {go : Int} {rents : List Int} {g g' : RealEstateGame}
    {p : String} {pl : Player}
    (hgo : 0 < go) (hlen : rents.length = 24) (hpos : ∀ r ∈ rents, 0 < r)
    (hre : Reach (initial_game go rents) g)
    (hp : getPlayer? g p = some pl) (h0 : pl.account_balance = 0)
    (hsteps : Reach g g') :
    getPlayer? g' p = some pl ∧
    (∀ n, move_player g' p n = some g') ∧
    buy_space g' p = some (false, g') := by
  have hI : GameInv g := reach_inv hgo hlen hpos hre
  have hown0 : pl.owned_game_spaces = [] :=
    hI.zero_owns_nothing (p, pl) (getPlayer?_mem hp) h0
  have hno : ∀ (i : Nat) (sp : GameSpace), g.game_board[i]? = some sp →
      sp.game_space_owner ≠ some p := by
    intro i sp hi habs
    obtain ⟨q, hq, hq1, hq2⟩ := hI.owner_owned i sp p hi habs
    have hqm : (p, q.2) ∈ g.players := by
      rw [← hq1]
      exact (by simpa using hq)
    have hq2pl : q.2 = pl := mem_eq_of_getPlayer? hI.keys_nodup hp hqm
    rw [hq2pl, hown0] at hq2
    exact absurd hq2 (List.not_mem_nil _)
  obtain ⟨hp', _⟩ := frozen_preserved hsteps hp h0 hno
  have hI' : GameInv g' := reach_inv hgo hlen hpos (hre.trans hsteps)
  refine ⟨hp', fun n => move_player_inactive hp' h0 n, ?_⟩
  have hmem : (p, pl) ∈ g'.players := getPlayer?_mem hp'
  have hloc : pl.current_location < g'.game_board.length := by
    rw [hI'.board_len]
    exact hI'.loc_lt (p, pl) hmem
  exact buy_space_fail hp' (List.getElem?_eq_getElem hloc) (Or.inl h0)

theorem eliminated_player_frozen_witness :
    (0 : Int) < 200 ∧ flat_rents.length = 24 ∧ (∀ r ∈ flat_rents, 0 < r) ∧
    getPlayer? demo_game3 "B" = some (Player.mk "B" 0 1 []) ∧
    (Player.mk "B" 0 1 [] : Player).account_balance = 0 ∧
    (getPlayer? demo_game3 "B" = some (Player.mk "B" 0 1 []) ∧
     (∀ n, move_player demo_game3 "B" n = some demo_game3) ∧
     buy_space demo_game3 "B" = some (false, demo_game3)) :=
  ⟨by decide, by decide, by decide, by decide, by decide,
    @eliminated_player_frozen 200 flat_rents demo_game3 demo_game3 "B"
      (Player.mk "B" 0 1 []) (by decide) (by decide) (by decide)
      demo_game3_reachable (by decide) (by decide) Reach.refl⟩

theorem pay_rent_min_withdrawal {g g' : RealEstateGame} {name o : String} {pl plo : Player}
    {sp : GameSpace}
    (hp : getPlayer? g name = some pl)
    (hsp : g.game_board[pl.current_location]? = some sp)
    (how : sp.game_space_owner = some o) (hgo : o ≠ "GO") (hon : o ≠ name)
    (hpo : getPlayer? g o = some plo)
    (hpr : pay_rent g name = some g') :
    (getPlayer? g' name).map Player.account_balance =
      some (pl.account_balance - min sp.rent pl.account_balance) := by
  have hne_no : name ≠ o := fun he => hon he.symm
  by_cases hlt : sp.rent < pl.account_balance
  · rw [pay_rent_small hp hsp how hgo hpo hlt] at hpr
    rw [← Option.some.inj hpr]
    rw [getPlayer?_updatePlayer_ne _ _ _ _ hne_no, getPlayer?_updatePlayer_self, hp]
    rw [min_eq_left (le_of_lt hlt)]
    rfl
  · rw [pay_rent_big hp hsp how hgo hpo hlt] at hpr
    obtain ⟨pl2, board', hp2, hfold, rfl⟩ := lose_game_inv hpr
    rw [getPlayer?_updatePlayer_self, getPlayer?_set_board]
    have hpS2 : getPlayer? (updatePlayer (updatePlayer g name
        (fun p => Player.withdraw p pl.account_balance)) o
        (fun p => Player.deposit p pl.account_balance)) name =
        some (Player.withdraw pl pl.account_balance) := by
      rw [getPlayer?_updatePlayer_ne _ _ _ _ hne_no, getPlayer?_updatePlayer_self, hp]
      rfl
    rw [hpS2, min_eq_right (by omega)]
    rfl

/-- C8: in every reachable state of a game built from a positive GO
payout, 24 positive rents and nonnegative starting balances, every
player's balance is nonnegative; and the rent flow withdraws exactly
min(rent, balance) from a lander whose landing space is held by a
different player. -/
theorem balances_nonneg_min_withdrawal {go : Int} {rents : List Int} {g : RealEstateGame}
    (hgo : 0 < go) (hlen : rents.length = 24) (hpos : ∀ r ∈ rents, 0 < r)
    (hre : Reach (initial_game go rents) g) :
    (∀ kp ∈ g.players, 0 ≤ kp.2.account_balance) ∧
    (∀ (g' : RealEstateGame) (name o : String) (pl plo : Player) (sp : GameSpace),
      getPlayer? g name = some pl →
      g.game_board[pl.current_location]? = some sp →
      sp.game_space_owner = some o → o ≠ "GO" → o ≠ name →
      getPlayer? g o = some plo →
      pay_rent g name = some g' →
      (getPlayer? g' name).map Player.account_balance =
        some (pl.account_balance - min sp.rent pl.account_balance)) := by
  refine ⟨(reach_inv hgo hlen hpos hre).bal_nonneg, ?_⟩
  intro g' name o pl plo sp hp hsp how hgoo hon hpo hpr
  exact pay_rent_min_withdrawal hp hsp how hgoo hon hpo hpr

theorem balances_nonneg_min_withdrawal_witness :
    (0 : Int) < 200 ∧ flat_rents.length = 24 ∧ (∀ r ∈ flat_rents, 0 < r) ∧
    ((∀ kp ∈ demo_game3.players, 0 ≤ kp.2.account_balance) ∧
     (∀ (g' : RealEstateGame) (name o : String) (pl plo : Player) (sp : GameSpace),
      getPlayer? demo_game3 name = some pl →
      demo_game3.game_board[pl.current_location]? = some sp →
      sp.game_space_owner = some o → o ≠ "GO" → o ≠ name →
      getPlayer? demo_game3 o = some plo →
      pay_rent demo_game3 name = some g' →
      (getPlayer? g' name).map Player.account_balance =
        some (pl.account_balance - min sp.rent pl.account_balance))) :=
  ⟨by decide, by decide, by decide,
    @balances_nonneg_min_withdrawal 200 flat_rents demo_game3
      (by decide) (by decide) (by decide) demo_game3_reachable⟩

/-- C10: in every reachable state, a space's owner field names player p
exactly when the space's identifier is in p's owned list; owned lists
are duplicate-free and no identifier lies in two different players'
lists. -/
theorem ownership_consistency {go : Int} {rents : List Int} {g : RealEstateGame}
    (hgo : 0 < go) (hlen : rents.length = 24) (hpos : ∀ r ∈ rents, 0 < r)
    (hre : Reach (initial_game go rents) g) :
    (∀ (i : Nat) (sp : GameSpace) (kp : String × Player),
      g.game_board[i]? = some sp → kp ∈ g.players →
      (sp.game_space_owner = some kp.2.player_name ↔ i ∈ kp.2.owned_game_spaces)) ∧
    (∀ kp ∈ g.players, kp.2.owned_game_spaces.Nodup) ∧
    (∀ kp ∈ g.players, ∀ kq ∈ g.players, ∀ i, i ∈ kp.2.owned_game_spaces →
      i ∈ kq.2.owned_game_spaces → kp = kq) := by
  have hI := reach_inv hgo hlen hpos hre
  refine ⟨?_, hI.owned_nodup, ?_⟩
  · intro i sp kp hi hkp
    rw [hI.name_eq kp hkp]
    constructor
    · intro how
      obtain ⟨q, hq, hq1, hq2⟩ := hI.owner_owned i sp kp.1 hi how
      have hqe : q = kp := entry_eq_of_keys_nodup hI.keys_nodup hq hkp hq1
      rw [← hqe]
      exact hq2
    · intro hio
      obtain ⟨sp2, hsp2, hsp2o⟩ := hI.owned_owner kp hkp i hio
      rw [hi] at hsp2
      rw [← Option.some.inj hsp2] at hsp2o
      exact hsp2o
  · intro kp hkp kq hkq i hip hiq
    obtain ⟨sp1, hsp1, hsp1o⟩ := hI.owned_owner kp hkp i hip
    obtain ⟨sp2, hsp2, hsp2o⟩ := hI.owned_owner kq hkq i hiq
    rw [hsp1] at hsp2
    rw [← Option.some.inj hsp2] at hsp2o
    rw [hsp1o] at hsp2o
    exact entry_eq_of_keys_nodup hI.keys_nodup hkp hkq (Option.some.inj hsp2o.symm).symm

theorem ownership_consistency_witness :
    (0 : Int) < 200 ∧ flat_rents.length = 24 ∧ (∀ r ∈ flat_rents, 0 < r) ∧
    ((∀ (i : Nat) (sp : GameSpace) (kp : String × Player),
      demo_game3.game_board[i]? = some sp → kp ∈ demo_game3.players →
      (sp.game_space_owner = some kp.2.player_name ↔ i ∈ kp.2.owned_game_spaces)) ∧
     (∀ kp ∈ demo_game3.players, kp.2.owned_game_spaces.Nodup) ∧
     (∀ kp ∈ demo_game3.players, ∀ kq ∈ demo_game3.players, ∀ i,
      i ∈ kp.2.owned_game_spaces → i ∈ kq.2.owned_game_spaces → kp = kq)) :=
  ⟨by decide, by decide, by decide,
    @ownership_consistency 200 flat_rents demo_game3
      (by decide) (by decide) (by decide) demo_game3_reachable⟩
